import Mathlib

/-!
# kooper-atom: CRD client and reconciliation controller

A shallow embedding of `client/crd/crd.go` (the CRD client: `EnsurePresent`,
`WaitToBePresent`, `Delete` and their helpers) and a model of the event loop of the
reconciliation controller, together with theorems about them.

Conventions of the embedding

* The remote API (`aeClient`) is an external collaborator.  It is a record of
  state-passing functions over an arbitrary server state `σ`; every call the
  client makes is also appended to a log of calls, so that statements such as
  "no remote Create is issued" can be read off the log.
* `kubeversion.ParseGeneric`, `Version.LessThan` and the constant
  `clusterMinVersion` come from an external library; they are fields of the
  same record.
* The clock (`wraptime.Time`) is external.  `After` and `NewTicker` are logged
  as calls; the values the `select` statement receives are an explicit list of
  clock events.  When the list is exhausted before the loop returns, the call
  is still blocked in `select`.
* The logger calls (`c.logger.Infof`) have no effect on results and are left out.
* A nil pointer is `none`; a nil slice and an empty slice are both the empty list.
-/

namespace Kooper
namespace Crd

/-! ## Data model -/

/-- Go `time.Duration`: a number of nanoseconds. -/
abbrev Duration := Nat

def second : Duration := 1000000000

def minute : Duration := 60 * second

def checkCRDInterval : Duration := 2 * second

def crdReadyTimeout : Duration := 3 * minute

def defCategories : List String := ["all", "kooper"]

/-- Scope of a CRD (`apiextensionsv1beta1.ResourceScope`). -/
inductive Scope where
  | ClusterScoped
  | NamespaceScoped
  deriving DecidableEq, Repr

/-- Scale subresource configuration (`CustomResourceSubresourceScale`). -/
structure CustomResourceSubresourceScale where
  SpecReplicasPath : String
  StatusReplicasPath : String
  LabelSelectorPath : Option String
  deriving DecidableEq, Repr

/-- Status subresource marker (`CustomResourceSubresourceStatus`, an empty struct). -/
structure CustomResourceSubresourceStatus where
  deriving DecidableEq, Repr

/-- Subresources object (`CustomResourceSubresources`); a nil pointer field is `none`. -/
structure CustomResourceSubresources where
  Status : Option CustomResourceSubresourceStatus
  Scale : Option CustomResourceSubresourceScale
  deriving DecidableEq, Repr

/-- Configuration required to create a CRD. -/
structure Conf where
  Kind : String
  NamePlural : String
  ShortNames : List String
  Group : String
  Version : String
  Scope : Scope
  Categories : List String
  EnableStatusSubresource : Bool
  EnableScaleSubresource : Option CustomResourceSubresourceScale
  deriving DecidableEq, Repr

/-- Names part of a definition (`CustomResourceDefinitionNames`). -/
structure CustomResourceDefinitionNames where
  Plural : String
  Kind : String
  ShortNames : List String
  Categories : List String
  deriving DecidableEq, Repr

/-- Spec part of a definition (`CustomResourceDefinitionSpec`). -/
structure CustomResourceDefinitionSpec where
  Group : String
  Version : String
  Scope : Scope
  Names : CustomResourceDefinitionNames
  Subresources : Option CustomResourceSubresources
  deriving DecidableEq, Repr

/-- The object sent to the remote Create (`CustomResourceDefinition`); `Name` is
`ObjectMeta.Name`. -/
structure CustomResourceDefinition where
  Name : String
  Spec : CustomResourceDefinitionSpec
  deriving DecidableEq, Repr

/-- Status reason carried by an API error, as far as the client inspects it. -/
inductive StatusReason where
  | AlreadyExists
  | NotFound
  | Unknown
  deriving DecidableEq, Repr

/-- A Go `error` value: its message and, for API status errors, its reason. -/
structure GoError where
  msg : String
  reason : StatusReason
  deriving DecidableEq, Repr

/-- An error built by `fmt.Errorf`: a plain message, not an API status error. -/
def Errorf (msg : String) : GoError := ⟨msg, StatusReason.Unknown⟩

/-- Embedding of `errors.IsAlreadyExists`. -/
def IsAlreadyExists (err : GoError) : Bool :=
  decide (err.reason = StatusReason.AlreadyExists)

/-- A call made by the client on one of its collaborators. -/
inductive Call where
  | ServerVersion
  | Create (crd : CustomResourceDefinition)
  | Get (name : String)
  | Delete (name : String)
  | After (d : Duration)
  | NewTicker (d : Duration)
  deriving DecidableEq, Repr

/-- The collaborators of `Client`: the remote API over a server state `σ` and the
version library over a version type `V`. -/
structure Client (σ V : Type) where
  ServerVersion : σ → Except GoError String × σ
  Create : CustomResourceDefinition → σ → Option GoError × σ
  Get : String → σ → Option GoError × σ
  Delete : String → σ → Option GoError × σ
  ParseGeneric : String → Except GoError V
  LessThan : V → V → Bool
  clusterMinVersion : V
  /-- The package variable is `kubeversion.MustParseGeneric("v1.7.0")`, which panics at
  start-up unless the string parses. -/
  clusterMinVersion_eq : ParseGeneric "v1.7.0" = Except.ok clusterMinVersion

/-- The state threaded through the client: the server and the log of calls. -/
structure World (σ : Type) where
  server : σ
  calls : List Call

/-- A value received by the `select` of the polling loop. -/
inductive ClockEvent where
  | Tick
  | Deadline
  deriving DecidableEq, Repr

/-- How a blocking operation ends: it returns an error value (`none` is Go's nil
error) or it is still blocked when the clock events run out. -/
inductive Outcome where
  | Returned (err : Option GoError)
  | Blocked
  deriving DecidableEq, Repr

/-! ## Operations -/

variable {σ V : Type}

/-- Embedding of `Conf.getName`. -/
def Conf.getName (c : Conf) : String :=
  c.NamePlural ++ "." ++ c.Group

/-- Embedding of `Client.createSubresources`. -/
def createSubresources (conf : Conf) : Option CustomResourceSubresources :=
  if !conf.EnableStatusSubresource && conf.EnableScaleSubresource.isNone then
    none
  else
    let sr : CustomResourceSubresources := ⟨none, none⟩
    let sr : CustomResourceSubresources :=
      if conf.EnableStatusSubresource then { sr with Status := some {} } else sr
    let sr : CustomResourceSubresources :=
      if conf.EnableScaleSubresource.isSome then
        { sr with Scale := conf.EnableScaleSubresource }
      else sr
    some sr

/-- The map `currentCats` built by the first loop of `addDefaultCategories`. -/
def currentCatsOf (categories : List String) : String → Option Bool :=
  categories.foldl (fun m ca => fun k => if k = ca then some true else m k) (fun _ => none)

/-- Embedding of `Client.addDefaultCategories`. -/
def addDefaultCategories (categories : List String) : List String :=
  let currentCats := currentCatsOf categories
  defCategories.foldl
    (fun cats ca => if (currentCats ca).isNone then cats ++ [ca] else cats) categories

/-- The error of an unsupported cluster version. -/
def errUnsupportedVersion : GoError :=
  Errorf "not a valid cluster version for CRDs (required >=1.7)"

/-- The error of an expired readiness wait. -/
def errTimeout : GoError := Errorf "timeout waiting for CRD"

/-- Embedding of `Client.validClusterForCRDs`. -/
def validClusterForCRDs (c : Client σ V) (w : World σ) : Option GoError × World σ :=
  let r := c.ServerVersion w.server
  let w1 : World σ := ⟨r.2, w.calls ++ [Call.ServerVersion]⟩
  match r.1 with
  | Except.error err => (some err, w1)
  | Except.ok v =>
    match c.ParseGeneric v with
    | Except.error err => (some err, w1)
    | Except.ok parsedV =>
      if c.LessThan parsedV c.clusterMinVersion then (some errUnsupportedVersion, w1)
      else (none, w1)

/-- The `for { select { ... } }` loop of `WaitToBePresent`, driven by the values
received from the ticker and the deadline channel. -/
def waitLoop (c : Client σ V) (name : String) : List ClockEvent → World σ → Outcome × World σ
  | [], w => (Outcome.Blocked, w)
  | ClockEvent.Tick :: evs, w =>
    let r := c.Get name w.server
    let w1 : World σ := ⟨r.2, w.calls ++ [Call.Get name]⟩
    match r.1 with
    | none => (Outcome.Returned none, w1)
    | some _ => waitLoop c name evs w1
  | ClockEvent.Deadline :: _, w => (Outcome.Returned (some errTimeout), w)

/-- Embedding of `Client.WaitToBePresent`. -/
def WaitToBePresent (c : Client σ V) (name : String) (timeout : Duration)
    (evs : List ClockEvent) (w : World σ) : Outcome × World σ :=
  match validClusterForCRDs c w with
  | (some err, w1) => (Outcome.Returned (some err), w1)
  | (none, w1) =>
    let w2 : World σ := ⟨w1.server, w1.calls ++ [Call.After timeout]⟩
    let w3 : World σ := ⟨w2.server, w2.calls ++ [Call.NewTicker checkCRDInterval]⟩
    waitLoop c name evs w3

/-- The definition `EnsurePresent` sends to the remote Create. -/
def crdOf (conf : Conf) : CustomResourceDefinition :=
  { Name := conf.getName
    Spec :=
      { Group := conf.Group
        Version := conf.Version
        Scope := conf.Scope
        Names :=
          { Plural := conf.NamePlural
            Kind := conf.Kind
            ShortNames := conf.ShortNames
            Categories := addDefaultCategories conf.Categories }
        Subresources := createSubresources conf } }

/-- Embedding of `Client.EnsurePresent`. -/
def EnsurePresent (c : Client σ V) (conf : Conf) (evs : List ClockEvent) (w : World σ) :
    Outcome × World σ :=
  match validClusterForCRDs c w with
  | (some err, w1) => (Outcome.Returned (some err), w1)
  | (none, w1) =>
    let crdName := conf.getName
    let crd := crdOf conf
    let r := c.Create crd w1.server
    let w2 : World σ := ⟨r.2, w1.calls ++ [Call.Create crd]⟩
    match r.1 with
    | some err =>
      if !IsAlreadyExists err then
        (Outcome.Returned (some (Errorf ("error creating crd " ++ crdName ++ ": " ++ err.msg))), w2)
      else (Outcome.Returned none, w2)
    | none =>
      match WaitToBePresent c crdName crdReadyTimeout evs w2 with
      | (Outcome.Returned (some err), w3) => (Outcome.Returned (some err), w3)
      | (Outcome.Returned none, w3) => (Outcome.Returned none, w3)
      | (Outcome.Blocked, w3) => (Outcome.Blocked, w3)

/-- Embedding of `Client.Delete`. -/
def Delete (c : Client σ V) (name : String) (w : World σ) : Option GoError × World σ :=
  match validClusterForCRDs c w with
  | (some err, w1) => (some err, w1)
  | (none, w1) =>
    let r := c.Delete name w1.server
    (r.1, ⟨r.2, w1.calls ++ [Call.Delete name]⟩)


/-! ## Vocabulary of the statements -/

/-- The server in state `s` reports a version that parses and is not lower than
`clusterMinVersion`. -/
def VersionAccepted (c : Client σ V) (s : σ) : Prop :=
  ∃ v pv, (c.ServerVersion s).1 = Except.ok v ∧ c.ParseGeneric v = Except.ok pv ∧
    c.LessThan pv c.clusterMinVersion = false

/-- The server in state `s` reports a version that parses and is lower than
`clusterMinVersion`. -/
def VersionBelowMin (c : Client σ V) (s : σ) : Prop :=
  ∃ v pv, (c.ServerVersion s).1 = Except.ok v ∧ c.ParseGeneric v = Except.ok pv ∧
    c.LessThan pv c.clusterMinVersion = true

/-- The server state after `n` successive `Get name` calls. -/
def afterGets (c : Client σ V) (name : String) : Nat → σ → σ
  | 0, s => s
  | n + 1, s => afterGets c name n (c.Get name s).2

/-- The first `n` successive `Get name` calls from state `s` all return an error. -/
def getsFail (c : Client σ V) (name : String) : Nat → σ → Bool
  | 0, _ => true
  | n + 1, s => (c.Get name s).1.isSome && getsFail c name n (c.Get name s).2

/-- What is assumed of a remote store in which a created definition stays present:
`present s n` says that the definition named `n` exists in state `s`. -/
structure StoreLaws (c : Client σ V) (present : σ → String → Prop) : Prop where
  create_ok : ∀ crd s, (c.Create crd s).1 = none → present (c.Create crd s).2 crd.Name
  create_present : ∀ crd s, present s crd.Name →
    ∃ e, (c.Create crd s).1 = some e ∧ e.reason = StatusReason.AlreadyExists
  get_keeps : ∀ n m s, present s n → present (c.Get m s).2 n
  version_keeps : ∀ n s, present s n → present (c.ServerVersion s).2 n

/-! ## An in-memory server

A small concrete server, in the manner of the fake clientset of the tests, used to
evaluate the operations on concrete inputs. -/

/-- State of the in-memory server. -/
structure FakeServer where
  /-- Answers to the successive `ServerVersion` queries; the last one is repeated. -/
  versions : List String
  /-- Names of the stored definitions. -/
  crds : List String
  /-- Number of `Get` calls that still answer not-found before stored definitions
  become visible. -/
  notReady : Nat
  deriving DecidableEq, Repr

def fakeServerVersion (s : FakeServer) : Except GoError String × FakeServer :=
  match s.versions with
  | [] => (Except.error (Errorf "connection refused"), s)
  | [v] => (Except.ok v, s)
  | v :: rest => (Except.ok v, { s with versions := rest })

def fakeCreate (crd : CustomResourceDefinition) (s : FakeServer) : Option GoError × FakeServer :=
  if crd.Name ∈ s.crds then (some ⟨"already exists", StatusReason.AlreadyExists⟩, s)
  else (none, { s with crds := crd.Name :: s.crds })

def fakeGet (name : String) (s : FakeServer) : Option GoError × FakeServer :=
  if s.notReady = 0 ∧ name ∈ s.crds then (none, s)
  else (some ⟨"not found", StatusReason.NotFound⟩, { s with notReady := s.notReady - 1 })

def fakeDelete (name : String) (s : FakeServer) : Option GoError × FakeServer :=
  if name ∈ s.crds then (none, { s with crds := s.crds.erase name })
  else (some ⟨"not found", StatusReason.NotFound⟩, s)

/-- A table standing for the version parser on the strings used here. -/
def fakeParseGeneric (v : String) : Except GoError (List Nat) :=
  if v = "v1.7.0" then Except.ok [1, 7, 0]
  else if v = "v1.6.0" then Except.ok [1, 6, 0]
  else if v = "v1.10.0" then Except.ok [1, 10, 0]
  else Except.error (Errorf "could not parse version")

/-- Component-wise comparison of versions. -/
def fakeLessThan : List Nat → List Nat → Bool
  | [], [] => false
  | [], _ :: _ => true
  | _ :: _, [] => false
  | a :: as, b :: bs => a < b || (a = b && fakeLessThan as bs)

def fakeClient : Client FakeServer (List Nat) where
  ServerVersion := fakeServerVersion
  Create := fakeCreate
  Get := fakeGet
  Delete := fakeDelete
  ParseGeneric := fakeParseGeneric
  LessThan := fakeLessThan
  clusterMinVersion := [1, 7, 0]
  clusterMinVersion_eq := by simp [fakeParseGeneric]

/-- The declaration of the concrete scenario of the specification. -/
def fooConf : Conf where
  Kind := "Foo"
  NamePlural := "foos"
  ShortNames := []
  Group := "example.com"
  Version := "v1"
  Scope := Scope.ClusterScoped
  Categories := []
  EnableStatusSubresource := false
  EnableScaleSubresource := none

/-- A server older than the minimum version. -/
def oldServer : FakeServer := ⟨["v1.6.0"], [], 0⟩

/-- A server holding "foos.example.com", visible from the third Get on. -/
def settlingServer : FakeServer := ⟨["v1.7.0"], ["foos.example.com"], 2⟩

/-- A server that answers the first version query with v1.7.0 and every later one with
v1.6.0, and holds "foos.example.com". -/
def downgradedServer : FakeServer := ⟨["v1.7.0", "v1.6.0"], ["foos.example.com"], 0⟩

/-- A server with no definition, on which new definitions stay invisible for five
Gets. -/
def emptyServer : FakeServer := ⟨["v1.10.0"], [], 5⟩

end Crd

namespace Controller

/-! ## The reconciliation controller

`operator/controller/generic.go` declares the controller record only: the work queue,
the informer, the handler and the configuration it holds.  The event source, the
worker pool and the work queue contract are described by sections 4.2 and 6 of the
specification; time is counted in units of the resync interval's unit, and the backoff
delay of rate-limited re-adds is not represented. -/

/-- Modelled from the spec: the controller configuration (section 3), whose declaration
is not in the sources: controller name, resync interval, maximum retries per item
(`maxRetries ≥ 0`, hence a natural number) and number of concurrent workers. -/
structure Config where
  Name : String
  ResyncInterval : Nat
  MaxRetries : Nat
  ConcurrentWorkers : Nat

/-- Modelled from the spec: the work queue (section 6), an external collaborator: the
waiting keys, first in first out; the keys in flight to a worker; the keys added again
while in flight; and the retry counter the queue keeps for each key. -/
structure WorkQueue where
  items : List String
  processing : List String
  dirty : String → Bool
  requeues : String → Nat

/-- Modelled from the spec: `Add(key)` of the work queue contract: adding a waiting key
is a no-op, adding a key that is in flight marks it to be queued again when it is done. -/
def WorkQueue.Add (q : WorkQueue) (key : String) : WorkQueue :=
  if key ∈ q.items then q
  else if key ∈ q.processing then
    { q with dirty := fun k => if k = key then true else q.dirty k }
  else { q with items := q.items ++ [key] }

/-- Modelled from the spec: `Get()` of the work queue contract: the first waiting key
becomes in flight; `none` stands for the call blocking on an empty queue. -/
def WorkQueue.Get (q : WorkQueue) : Option (String × WorkQueue) :=
  match q.items with
  | [] => none
  | key :: rest => some (key, { q with items := rest, processing := q.processing ++ [key] })

/-- Modelled from the spec: `Done(key)` of the work queue contract: the key is no longer
in flight, and is queued again if it was added while in flight. -/
def WorkQueue.Done (q : WorkQueue) (key : String) : WorkQueue :=
  { items := if q.dirty key then q.items ++ [key] else q.items
    processing := q.processing.filter (fun k => decide (k ≠ key))
    dirty := fun k => if k = key then false else q.dirty k
    requeues := q.requeues }

/-- Modelled from the spec: `NumRequeues(key)` of the work queue contract. -/
def WorkQueue.NumRequeues (q : WorkQueue) (key : String) : Nat :=
  q.requeues key

/-- Modelled from the spec: `AddRateLimited(key)` of the work queue contract: re-adds the
key and increments its retry count. -/
def WorkQueue.AddRateLimited (q : WorkQueue) (key : String) : WorkQueue :=
  { q.Add key with requeues := fun k => if k = key then q.requeues key + 1 else q.requeues k }

/-- Modelled from the spec: `Forget(key)` of the work queue contract: resets the retry
count of the key. -/
def WorkQueue.Forget (q : WorkQueue) (key : String) : WorkQueue :=
  { q with requeues := fun k => if k = key then 0 else q.requeues k }

/-- Modelled from the spec: the state of a running controller: the work queue, the keys
in the cache of the event source, the time elapsed, and three logs: the keys the handler
was invoked with, the keys reported as permanent failures, and the keys the event source
passed to `Add`. -/
structure State where
  queue : WorkQueue
  known : List String
  clock : Nat
  handled : List String
  dropped : List String
  sourced : List String

/-- Modelled from the spec: what can happen next in a running controller (section 4.2):
the event source sees a change of an object (`deleted` tells whether the object is
gone); one unit of time passes; an idle worker dequeues a key while leadership is as
given; the handler invocation that is `i`-th among those in flight returns. -/
inductive Event where
  | informer (key : String) (deleted : Bool)
  | elapse
  | take (leader : Bool)
  | finish (i : Nat)

/-- Modelled from the spec: the periodic resync is due each time the elapsed time is a
multiple of the resync interval; an interval of zero means no resync. -/
def resyncDue (cfg : Config) (clock : Nat) : Bool :=
  decide (cfg.ResyncInterval ≠ 0) && decide (clock % cfg.ResyncInterval = 0)

/-- Modelled from the spec: one step of a running controller (section 4.2, steps 1 to
5), which is not in the sources.  The event source adds the key of a changed object,
and at each resync every key of its cache.  A worker that dequeues a key while not the
leader returns it to the queue; while the leader it invokes the handler.  The handler is
given the key and the number of earlier invocations for that key and answers whether it
succeeded: success forgets the key; failure re-enqueues it with its retry counter
incremented, unless the counter then exceeds `MaxRetries`, in which case the key is
dropped and reported; in every case the key is then marked done. -/
def step (cfg : Config) (handler : String → Nat → Bool) : Event → State → State
  | Event.informer key deleted, st =>
    { st with
      known :=
        if deleted then st.known.filter (fun k => decide (k ≠ key))
        else if key ∈ st.known then st.known else st.known ++ [key]
      queue := st.queue.Add key
      sourced := st.sourced ++ [key] }
  | Event.elapse, st =>
    if resyncDue cfg (st.clock + 1) then
      { st with
        clock := st.clock + 1
        queue := st.known.foldl WorkQueue.Add st.queue
        sourced := st.sourced ++ st.known }
    else { st with clock := st.clock + 1 }
  | Event.take leader, st =>
    if cfg.ConcurrentWorkers ≤ st.queue.processing.length then st
    else
      match st.queue.Get with
      | none => st
      | some (key, q) =>
        if !leader then { st with queue := (q.Add key).Done key }
        else { st with queue := q, handled := st.handled ++ [key] }
  | Event.finish i, st =>
    match st.queue.processing[i]? with
    | none => st
    | some key =>
      if handler key (st.handled.count key - 1) then
        { st with queue := (st.queue.Forget key).Done key }
      else if (st.queue.AddRateLimited key).NumRequeues key > cfg.MaxRetries then
        { st with
          queue := (st.queue.Forget key).Done key
          dropped := st.dropped ++ [key] }
      else { st with queue := (st.queue.AddRateLimited key).Done key }

/-- Modelled from the spec: a run of the controller: the steps for the given events, in
order. -/
def run (cfg : Config) (handler : String → Nat → Bool) : List Event → State → State
  | [], st => st
  | ev :: evs, st => run cfg handler evs (step cfg handler ev st)

/-- A controller that has just been started: nothing queued, cached or logged. -/
def started : State :=
  ⟨⟨[], [], fun _ => false, fun _ => 0⟩, [], 0, [], [], []⟩

/-- The events of `n` iterations of one worker while leadership is held: each dequeues
a key and has the handler return. -/
def iterations : Nat → List Event
  | 0 => []
  | n + 1 => Event.take true :: Event.finish 0 :: iterations n

/-- The events by which the event source sees each of the given objects once. -/
def arrivals (keys : List String) : List Event :=
  keys.map (fun key => Event.informer key false)

/-- The invocations still allowed to a key without a new enqueue by the event source. -/
def credit (cfg : Config) (q : WorkQueue) (k : String) : Nat :=
  if k ∈ q.items then cfg.MaxRetries + 1 - q.requeues k
  else if k ∈ q.processing then
    (if q.dirty k then cfg.MaxRetries + 1 else cfg.MaxRetries - q.requeues k)
  else 0

/-- The attempts still allowed to the waiting keys, summed over the queue. -/
def budget (cfg : Config) (q : WorkQueue) : Nat :=
  (q.items.map (fun j => cfg.MaxRetries + 1 - q.requeues j)).sum

/-- The two queues agree on everything that concerns the key `k`. -/
def SameFor (k : String) (q q2 : WorkQueue) : Prop :=
  q2.items.count k = q.items.count k ∧ (k ∈ q2.processing ↔ k ∈ q.processing) ∧
    q2.dirty k = q.dirty k ∧ q2.requeues k = q.requeues k

/-- The invariant of a run with respect to a key `k` whose handler always fails: `h`
invocations of the handler for `k`, `a` enqueues of `k` by the event source and `d`
reports of `k` as a permanent failure. -/
structure KeyInv (cfg : Config) (k : String) (q : WorkQueue) (h a d : Nat) : Prop where
  once : q.items.count k ≤ 1
  excl : k ∈ q.processing → k ∉ q.items
  dirtyProc : q.dirty k = true → k ∈ q.processing
  bounded : q.requeues k ≤ cfg.MaxRetries
  bound : h + credit cfg q k ≤ (cfg.MaxRetries + 1) * a
  exact0 : a = 0 → k ∉ q.items ∧ k ∉ q.processing ∧ q.requeues k = 0 ∧ d = 0
  exact1 : a = 1 → q.dirty k = false ∧ h + credit cfg q k = cfg.MaxRetries + 1 ∧
    (k ∉ q.items → k ∉ q.processing → d = 1) ∧ ((k ∈ q.items ∨ k ∈ q.processing) → d = 0)

/-- The invariant `KeyInv` of a state of the controller. -/
def Inv (cfg : Config) (k : String) (st : State) : Prop :=
  KeyInv cfg k st.queue (st.handled.count k) (st.sourced.count k) (st.dropped.count k)

/-- The invariant of a state between two iterations of a single worker: nothing in
flight, no key waiting twice, and every waiting key within its retry budget. -/
structure DrainInv (cfg : Config) (st : State) : Prop where
  idle : st.queue.processing = []
  nodup : st.queue.items.Nodup
  clean : ∀ j, st.queue.dirty j = false
  bounded : ∀ j ∈ st.queue.items, st.queue.requeues j ≤ cfg.MaxRetries

end Controller

namespace Crd

variable {σ V : Type}

/-! ## The version gate -/

theorem validClusterForCRDs_world (c : Client σ V) (w : World σ) :
    (validClusterForCRDs c w).2 = ⟨(c.ServerVersion w.server).2, w.calls ++ [Call.ServerVersion]⟩ := by
  unfold validClusterForCRDs
  cases h1 : (c.ServerVersion w.server).1 with
  | error e => simp [h1]
  | ok v =>
    cases h2 : c.ParseGeneric v with
    | error e => simp [h1, h2]
    | ok pv =>
      by_cases h3 : c.LessThan pv c.clusterMinVersion = true <;> simp [h1, h2, h3]

theorem validClusterForCRDs_accepted (c : Client σ V) (w : World σ)
    (h : VersionAccepted c w.server) :
    validClusterForCRDs c w
      = (none, ⟨(c.ServerVersion w.server).2, w.calls ++ [Call.ServerVersion]⟩) := by
  obtain ⟨v, pv, h1, h2, h3⟩ := h
  simp [validClusterForCRDs, h1, h2, h3]

theorem validClusterForCRDs_below (c : Client σ V) (w : World σ)
    (h : VersionBelowMin c w.server) :
    validClusterForCRDs c w
      = (some errUnsupportedVersion,
          ⟨(c.ServerVersion w.server).2, w.calls ++ [Call.ServerVersion]⟩) := by
  obtain ⟨v, pv, h1, h2, h3⟩ := h
  simp [validClusterForCRDs, h1, h2, h3]

/-! ## The polling loop -/

theorem waitLoop_success (c : Client σ V) (name : String) (n : Nat) (rest : List ClockEvent)
    (w : World σ) (hf : getsFail c name n w.server = true)
    (hs : (c.Get name (afterGets c name n w.server)).1 = none) :
    waitLoop c name (List.replicate n ClockEvent.Tick ++ ClockEvent.Tick :: rest) w
      = (Outcome.Returned none,
          ⟨(c.Get name (afterGets c name n w.server)).2,
            w.calls ++ List.replicate (n + 1) (Call.Get name)⟩) := by
  induction n generalizing w with
  | zero =>
    simp only [afterGets] at hs
    simp [waitLoop, afterGets, hs]
  | succ n ih =>
    simp only [getsFail, Bool.and_eq_true] at hf
    obtain ⟨e, he⟩ := Option.isSome_iff_exists.mp hf.1
    have h := ih ⟨(c.Get name w.server).2, w.calls ++ [Call.Get name]⟩ hf.2 hs
    simp only [List.replicate_succ, List.cons_append, waitLoop, he, afterGets]
    exact h.trans (by simp [List.replicate_succ])

theorem waitLoop_deadline (c : Client σ V) (name : String) (n : Nat) (rest : List ClockEvent)
    (w : World σ) (hf : getsFail c name n w.server = true) :
    waitLoop c name (List.replicate n ClockEvent.Tick ++ ClockEvent.Deadline :: rest) w
      = (Outcome.Returned (some errTimeout),
          ⟨afterGets c name n w.server, w.calls ++ List.replicate n (Call.Get name)⟩) := by
  induction n generalizing w with
  | zero => simp [waitLoop, afterGets]
  | succ n ih =>
    simp only [getsFail, Bool.and_eq_true] at hf
    obtain ⟨e, he⟩ := Option.isSome_iff_exists.mp hf.1
    have h := ih ⟨(c.Get name w.server).2, w.calls ++ [Call.Get name]⟩ hf.2
    simp only [List.replicate_succ, List.cons_append, waitLoop, he, afterGets]
    exact h.trans (by simp [List.replicate_succ])

theorem waitLoop_blocked (c : Client σ V) (name : String) (n : Nat)
    (w : World σ) (hf : getsFail c name n w.server = true) :
    waitLoop c name (List.replicate n ClockEvent.Tick) w
      = (Outcome.Blocked,
          ⟨afterGets c name n w.server, w.calls ++ List.replicate n (Call.Get name)⟩) := by
  induction n generalizing w with
  | zero => simp [waitLoop, afterGets]
  | succ n ih =>
    simp only [getsFail, Bool.and_eq_true] at hf
    obtain ⟨e, he⟩ := Option.isSome_iff_exists.mp hf.1
    have h := ih ⟨(c.Get name w.server).2, w.calls ++ [Call.Get name]⟩ hf.2
    simp only [List.replicate_succ, waitLoop, he, afterGets]
    exact h.trans (by simp [List.replicate_succ])

theorem waitLoop_calls (c : Client σ V) (name : String) (evs : List ClockEvent) (w : World σ) :
    ∃ k, k ≤ evs.count ClockEvent.Tick ∧
      (waitLoop c name evs w).2.calls = w.calls ++ List.replicate k (Call.Get name) := by
  induction evs generalizing w with
  | nil => exact ⟨0, by simp, by simp [waitLoop]⟩
  | cons ev evs ih =>
    cases ev with
    | Deadline => exact ⟨0, by simp, by simp [waitLoop]⟩
    | Tick =>
      cases hg : (c.Get name w.server).1 with
      | none => exact ⟨1, by simp, by simp [waitLoop, hg]⟩
      | some e =>
        obtain ⟨k, hk, hc⟩ := ih ⟨(c.Get name w.server).2, w.calls ++ [Call.Get name]⟩
        refine ⟨k + 1, by simpa using hk, ?_⟩
        simp only [waitLoop, hg]
        rw [hc]
        simp [List.replicate_succ]

/-! ## The public operations -/

/-- C1: in every server state whose reported version parses and is lower than the
minimum (the parse of "v1.7.0"), each of `EnsurePresent`, `WaitToBePresent` and
`Delete` returns the unsupported cluster version error, and the only call it makes
is the `ServerVersion` query: no Create, no Delete, no Get and no timer. -/
theorem below_min_version_rejected (c : Client σ V) (w : World σ)
    (h : VersionBelowMin c w.server) (conf : Conf) (name : String) (timeout : Duration)
    (evs : List ClockEvent) :
    c.ParseGeneric "v1.7.0" = Except.ok c.clusterMinVersion ∧
    EnsurePresent c conf evs w
      = (Outcome.Returned
          (some (Errorf "not a valid cluster version for CRDs (required >=1.7)")),
          ⟨(c.ServerVersion w.server).2, w.calls ++ [Call.ServerVersion]⟩) ∧
    WaitToBePresent c name timeout evs w
      = (Outcome.Returned
          (some (Errorf "not a valid cluster version for CRDs (required >=1.7)")),
          ⟨(c.ServerVersion w.server).2, w.calls ++ [Call.ServerVersion]⟩) ∧
    Delete c name w
      = (some (Errorf "not a valid cluster version for CRDs (required >=1.7)"),
          ⟨(c.ServerVersion w.server).2, w.calls ++ [Call.ServerVersion]⟩) := by
  have hv := validClusterForCRDs_below c w h
  refine ⟨c.clusterMinVersion_eq, ?_, ?_, ?_⟩
  · simp [EnsurePresent, hv, errUnsupportedVersion]
  · simp [WaitToBePresent, hv, errUnsupportedVersion]
  · simp [Delete, hv, errUnsupportedVersion]

theorem clockEvents_cases (c : Client σ V) (name : String) (evs : List ClockEvent) (s : σ) :
    ∃ n, getsFail c name n s = true ∧
      (evs = List.replicate n ClockEvent.Tick ∨
        (∃ rest, evs = List.replicate n ClockEvent.Tick ++ ClockEvent.Deadline :: rest) ∨
        (∃ rest, evs = List.replicate n ClockEvent.Tick ++ ClockEvent.Tick :: rest ∧
          (c.Get name (afterGets c name n s)).1 = none)) := by
  induction evs generalizing s with
  | nil => exact ⟨0, rfl, Or.inl rfl⟩
  | cons ev evs ih =>
    cases ev with
    | Deadline => exact ⟨0, rfl, Or.inr (Or.inl ⟨evs, rfl⟩)⟩
    | Tick =>
      cases hg : (c.Get name s).1 with
      | none => exact ⟨0, rfl, Or.inr (Or.inr ⟨evs, rfl, hg⟩)⟩
      | some e =>
        obtain ⟨n, hf, hc⟩ := ih (c.Get name s).2
        refine ⟨n + 1, by simp [getsFail, hg, hf], ?_⟩
        rcases hc with h | ⟨rest, h⟩ | ⟨rest, h, hs⟩
        · exact Or.inl (by rw [h, List.replicate_succ])
        · exact Or.inr (Or.inl ⟨rest, by rw [h, List.replicate_succ, List.cons_append]⟩)
        · exact Or.inr (Or.inr ⟨rest, by rw [h, List.replicate_succ, List.cons_append],
            by simpa [afterGets] using hs⟩)

/-- C2: with the cluster version accepted, `WaitToBePresent` (i) returns no error at
the first tick whose Get succeeds, having issued exactly one Get per tick up to that
one and none after it, whatever events follow; (ii) returns the error
"timeout waiting for CRD" when the deadline is received while every Get so far has
failed (also when there was none); (iii) is still waiting after any number of ticks
whose Gets all failed; (iv) every list of clock events falls under one of these three
cases. -/
theorem waitToBePresent_polling (c : Client σ V) (name : String) (timeout : Duration)
    (w : World σ) (hv : VersionAccepted c w.server) :
    (∀ (n : Nat) (rest : List ClockEvent),
      getsFail c name n (c.ServerVersion w.server).2 = true →
      (c.Get name (afterGets c name n (c.ServerVersion w.server).2)).1 = none →
      WaitToBePresent c name timeout
          (List.replicate n ClockEvent.Tick ++ ClockEvent.Tick :: rest) w
        = (Outcome.Returned none,
            ⟨(c.Get name (afterGets c name n (c.ServerVersion w.server).2)).2,
              w.calls ++ [Call.ServerVersion, Call.After timeout,
                Call.NewTicker checkCRDInterval]
                ++ List.replicate (n + 1) (Call.Get name)⟩)) ∧
    (∀ (n : Nat) (rest : List ClockEvent),
      getsFail c name n (c.ServerVersion w.server).2 = true →
      WaitToBePresent c name timeout
          (List.replicate n ClockEvent.Tick ++ ClockEvent.Deadline :: rest) w
        = (Outcome.Returned (some (Errorf "timeout waiting for CRD")),
            ⟨afterGets c name n (c.ServerVersion w.server).2,
              w.calls ++ [Call.ServerVersion, Call.After timeout,
                Call.NewTicker checkCRDInterval]
                ++ List.replicate n (Call.Get name)⟩)) ∧
    (∀ (n : Nat),
      getsFail c name n (c.ServerVersion w.server).2 = true →
      WaitToBePresent c name timeout (List.replicate n ClockEvent.Tick) w
        = (Outcome.Blocked,
            ⟨afterGets c name n (c.ServerVersion w.server).2,
              w.calls ++ [Call.ServerVersion, Call.After timeout,
                Call.NewTicker checkCRDInterval]
                ++ List.replicate n (Call.Get name)⟩)) ∧
    (∀ evs : List ClockEvent,
      ∃ n, getsFail c name n (c.ServerVersion w.server).2 = true ∧
        (evs = List.replicate n ClockEvent.Tick ∨
          (∃ rest, evs = List.replicate n ClockEvent.Tick ++ ClockEvent.Deadline :: rest) ∨
          (∃ rest, evs = List.replicate n ClockEvent.Tick ++ ClockEvent.Tick :: rest ∧
            (c.Get name (afterGets c name n (c.ServerVersion w.server).2)).1 = none))) := by
  have hvc := validClusterForCRDs_accepted c w hv
  refine ⟨?_, ?_, ?_, fun evs => clockEvents_cases c name evs _⟩
  · intro n rest hf hs
    simp only [WaitToBePresent, hvc]
    rw [waitLoop_success c name n rest _ hf hs]
    simp
  · intro n rest hf
    simp only [WaitToBePresent, hvc]
    rw [waitLoop_deadline c name n rest _ hf]
    simp [errTimeout]
  · intro n hf
    simp only [WaitToBePresent, hvc]
    rw [waitLoop_blocked c name n _ hf]
    simp

theorem ensurePresent_of_alreadyExists (c : Client σ V) (conf : Conf) (evs : List ClockEvent)
    (w : World σ) (hv : VersionAccepted c w.server) (e : GoError)
    (hc : (c.Create (crdOf conf) (c.ServerVersion w.server).2).1 = some e)
    (he : e.reason = StatusReason.AlreadyExists) :
    EnsurePresent c conf evs w
      = (Outcome.Returned none,
          ⟨(c.Create (crdOf conf) (c.ServerVersion w.server).2).2,
            w.calls ++ [Call.ServerVersion, Call.Create (crdOf conf)]⟩) := by
  have hvc := validClusterForCRDs_accepted c w hv
  simp [EnsurePresent, hvc, hc, IsAlreadyExists, he]

/-- C3: with the cluster version accepted, when the remote Create of the definition
(named `NamePlural ++ "." ++ Group`) answers AlreadyExists, `EnsurePresent` returns no
error and its only calls are the version query and that Create: no deadline, no
ticker and no Get. -/
theorem ensurePresent_alreadyExists (c : Client σ V) (conf : Conf) (evs : List ClockEvent)
    (w : World σ) (hv : VersionAccepted c w.server) (e : GoError)
    (hc : (c.Create (crdOf conf) (c.ServerVersion w.server).2).1 = some e)
    (he : e.reason = StatusReason.AlreadyExists) :
    (crdOf conf).Name = conf.NamePlural ++ "." ++ conf.Group ∧
    EnsurePresent c conf evs w
      = (Outcome.Returned none,
          ⟨(c.Create (crdOf conf) (c.ServerVersion w.server).2).2,
            w.calls ++ [Call.ServerVersion, Call.Create (crdOf conf)]⟩) := by
  exact ⟨rfl, ensurePresent_of_alreadyExists c conf evs w hv e hc he⟩

/-- C8: `Delete` checks the cluster version first: when the check fails it returns
that error and issues no remote Delete; when the version is accepted it issues exactly
one remote Delete, for the given name, and returns whatever that call returns: no
error when it succeeds and the remote error itself otherwise. -/
theorem delete_propagates (c : Client σ V) (name : String) (w : World σ) :
    (∀ err, (validClusterForCRDs c w).1 = some err →
      Delete c name w
        = (some err, ⟨(c.ServerVersion w.server).2, w.calls ++ [Call.ServerVersion]⟩)) ∧
    (VersionAccepted c w.server →
      Delete c name w
        = ((c.Delete name (c.ServerVersion w.server).2).1,
            ⟨(c.Delete name (c.ServerVersion w.server).2).2,
              w.calls ++ [Call.ServerVersion, Call.Delete name]⟩)) := by
  refine ⟨?_, ?_⟩
  · intro err h
    have hw := validClusterForCRDs_world c w
    have : validClusterForCRDs c w
        = (some err, ⟨(c.ServerVersion w.server).2, w.calls ++ [Call.ServerVersion]⟩) :=
      Prod.ext h hw
    simp [Delete, this]
  · intro hv
    have hvc := validClusterForCRDs_accepted c w hv
    simp [Delete, hvc]

/-- C9: `createSubresources` returns nil exactly when the status subresource is not
enabled and no scale configuration is given; otherwise it returns an object whose
Status part is present exactly when the status subresource is enabled and whose Scale
part is the given scale configuration (absent when none is given). -/
theorem createSubresources_spec (conf : Conf) :
    (createSubresources conf = none ↔
      (conf.EnableStatusSubresource = false ∧ conf.EnableScaleSubresource = none)) ∧
    (¬ (conf.EnableStatusSubresource = false ∧ conf.EnableScaleSubresource = none) →
      ∃ sr, createSubresources conf = some sr ∧
        (sr.Status.isSome = true ↔ conf.EnableStatusSubresource = true) ∧
        (sr.Scale.isSome = true ↔ conf.EnableScaleSubresource.isSome = true) ∧
        sr.Scale = conf.EnableScaleSubresource) := by
  unfold createSubresources
  cases hs : conf.EnableStatusSubresource <;> cases hc : conf.EnableScaleSubresource <;> simp

/-- The readiness wait leaves the calls log as the version query, the two timers and
at most one Get per tick. -/
theorem waitToBePresent_calls (c : Client σ V) (name : String) (timeout : Duration)
    (evs : List ClockEvent) (w : World σ) (hv : VersionAccepted c w.server) :
    ∃ k, k ≤ evs.count ClockEvent.Tick ∧
      (WaitToBePresent c name timeout evs w).2.calls
        = w.calls ++ [Call.ServerVersion, Call.After timeout, Call.NewTicker checkCRDInterval]
            ++ List.replicate k (Call.Get name) := by
  have hvc := validClusterForCRDs_accepted c w hv
  obtain ⟨k, hk, hc⟩ := waitLoop_calls c name evs
    ⟨(c.ServerVersion w.server).2,
      w.calls ++ [Call.ServerVersion] ++ [Call.After timeout]
        ++ [Call.NewTicker checkCRDInterval]⟩
  refine ⟨k, hk, ?_⟩
  simp only [WaitToBePresent, hvc]
  rw [hc]
  simp

theorem waitLoop_outcome (c : Client σ V) (name : String) (evs : List ClockEvent)
    (w : World σ) :
    (waitLoop c name evs w).1 = Outcome.Returned none ∨
    (waitLoop c name evs w).1 = Outcome.Returned (some errTimeout) ∨
    (waitLoop c name evs w).1 = Outcome.Blocked := by
  induction evs generalizing w with
  | nil => simp [waitLoop]
  | cons ev evs ih =>
    cases ev with
    | Deadline => simp [waitLoop]
    | Tick =>
      cases hg : (c.Get name w.server).1 with
      | none => simp [waitLoop, hg]
      | some e =>
        simp only [waitLoop, hg]
        exact ih _

/-- C7 (as stated, refuted): on a server whose version is accepted by the check at the
start of the wait and reported as v1.6.0 afterwards, the next poll issues Get and the
wait returns no error; the version is queried once. -/
theorem waitToBePresent_poll_skips_version_check :
    VersionAccepted fakeClient downgradedServer ∧
    VersionBelowMin fakeClient (fakeClient.ServerVersion downgradedServer).2 ∧
    WaitToBePresent fakeClient "foos.example.com" crdReadyTimeout [ClockEvent.Tick]
        ⟨downgradedServer, []⟩
      = (Outcome.Returned none,
          ⟨⟨["v1.6.0"], ["foos.example.com"], 0⟩,
            [Call.ServerVersion, Call.After crdReadyTimeout, Call.NewTicker checkCRDInterval,
              Call.Get "foos.example.com"]⟩) := by
  refine ⟨⟨"v1.7.0", [1, 7, 0], rfl, rfl, rfl⟩, ⟨"v1.6.0", [1, 6, 0], rfl, rfl, rfl⟩, ?_⟩
  rfl

/-- C7 (amended): `WaitToBePresent` validates the cluster version once, before it
creates the deadline and the ticker; when that check accepts the version, every later
call is a Get (at most one per tick, no further `ServerVersion` query), and the wait
ends with no error, with the timeout error, or is still waiting: it never fails with
the unsupported cluster version error, whatever version the server reports later. -/
theorem waitToBePresent_checks_version_once (c : Client σ V) (name : String)
    (timeout : Duration) (evs : List ClockEvent) (w : World σ)
    (hv : VersionAccepted c w.server) :
    (∃ k, k ≤ evs.count ClockEvent.Tick ∧
      (WaitToBePresent c name timeout evs w).2.calls
        = w.calls ++ [Call.ServerVersion, Call.After timeout, Call.NewTicker checkCRDInterval]
            ++ List.replicate k (Call.Get name)) ∧
    ((WaitToBePresent c name timeout evs w).1 = Outcome.Returned none ∨
      (WaitToBePresent c name timeout evs w).1
        = Outcome.Returned (some (Errorf "timeout waiting for CRD")) ∨
      (WaitToBePresent c name timeout evs w).1 = Outcome.Blocked) ∧
    (WaitToBePresent c name timeout evs w).1
      ≠ Outcome.Returned
          (some (Errorf "not a valid cluster version for CRDs (required >=1.7)")) := by
  have hvc := validClusterForCRDs_accepted c w hv
  have ho : (WaitToBePresent c name timeout evs w).1 = (waitLoop c name evs
      ⟨(c.ServerVersion w.server).2,
        w.calls ++ [Call.ServerVersion] ++ [Call.After timeout]
          ++ [Call.NewTicker checkCRDInterval]⟩).1 := by
    simp only [WaitToBePresent, hvc]
  have h3 := waitLoop_outcome c name evs
      ⟨(c.ServerVersion w.server).2,
        w.calls ++ [Call.ServerVersion] ++ [Call.After timeout]
          ++ [Call.NewTicker checkCRDInterval]⟩
  rw [← ho] at h3
  have h3b : (WaitToBePresent c name timeout evs w).1 = Outcome.Returned none ∨
      (WaitToBePresent c name timeout evs w).1
        = Outcome.Returned (some (Errorf "timeout waiting for CRD")) ∨
      (WaitToBePresent c name timeout evs w).1 = Outcome.Blocked := h3
  refine ⟨waitToBePresent_calls c name timeout evs w hv, h3b, ?_⟩
  rcases h3b with h | h | h <;> rw [h] <;> simp [Errorf]

/-! ## Calling `EnsurePresent` again -/

theorem waitLoop_present (c : Client σ V) (present : σ → String → Prop)
    (laws : StoreLaws c present) (n name : String) (evs : List ClockEvent) (w : World σ)
    (h : present w.server n) : present (waitLoop c name evs w).2.server n := by
  induction evs generalizing w with
  | nil => simpa [waitLoop] using h
  | cons ev evs ih =>
    cases ev with
    | Deadline => simpa [waitLoop] using h
    | Tick =>
      have hg := laws.get_keeps n name w.server h
      cases hr : (c.Get name w.server).1 with
      | none => simpa [waitLoop, hr] using hg
      | some e =>
        simp only [waitLoop, hr]
        exact ih _ hg

theorem waitToBePresent_present (c : Client σ V) (present : σ → String → Prop)
    (laws : StoreLaws c present) (n name : String) (timeout : Duration)
    (evs : List ClockEvent) (w : World σ) (h : present w.server n) :
    present (WaitToBePresent c name timeout evs w).2.server n := by
  have hw := validClusterForCRDs_world c w
  have hs := laws.version_keeps n w.server h
  rcases hr : validClusterForCRDs c w with ⟨_ | err, w1⟩
  · rw [hr] at hw
    simp only at hw
    subst hw
    simp only [WaitToBePresent, hr]
    exact waitLoop_present c present laws n name evs _ hs
  · rw [hr] at hw
    simp only at hw
    subst hw
    simpa [WaitToBePresent, hr] using hs

theorem ensurePresent_created_present (c : Client σ V) (present : σ → String → Prop)
    (laws : StoreLaws c present) (conf : Conf) (evs : List ClockEvent) (w : World σ)
    (hv : VersionAccepted c w.server)
    (hc : (c.Create (crdOf conf) (c.ServerVersion w.server).2).1 = none) :
    present (EnsurePresent c conf evs w).2.server (crdOf conf).Name := by
  have hvc := validClusterForCRDs_accepted c w hv
  have hp := laws.create_ok (crdOf conf) (c.ServerVersion w.server).2 hc
  have hw := waitToBePresent_present c present laws (crdOf conf).Name conf.getName
    crdReadyTimeout evs
    ⟨(c.Create (crdOf conf) (c.ServerVersion w.server).2).2,
      w.calls ++ [Call.ServerVersion] ++ [Call.Create (crdOf conf)]⟩ hp
  simp only [EnsurePresent, hvc, hc]
  split <;> rename_i heq <;> rw [heq] at hw <;> exact hw

/-- C4: against a store in which a created definition stays present and Create of a
present name answers AlreadyExists, if a first `EnsurePresent conf` had its version
check accepted and its Create succeed, then a second `EnsurePresent conf` made on the
state the first one left, with the version accepted again, returns no error, whatever
the first call did after its Create (ready, timed out, or still waiting) and whatever
clock events either call sees. -/
theorem ensurePresent_twice (c : Client σ V) (present : σ → String → Prop)
    (laws : StoreLaws c present) (conf : Conf) (evs1 evs2 : List ClockEvent) (w : World σ)
    (hv1 : VersionAccepted c w.server)
    (hc : (c.Create (crdOf conf) (c.ServerVersion w.server).2).1 = none)
    (hv2 : VersionAccepted c (EnsurePresent c conf evs1 w).2.server) :
    (EnsurePresent c conf evs2 (EnsurePresent c conf evs1 w).2).1 = Outcome.Returned none := by
  have hp := ensurePresent_created_present c present laws conf evs1 w hv1 hc
  have hp2 := laws.version_keeps _ _ hp
  obtain ⟨e, he, hr⟩ := laws.create_present (crdOf conf) _ hp2
  rw [ensurePresent_of_alreadyExists c conf evs2 (EnsurePresent c conf evs1 w).2 hv2 e he hr]

/-! ## The operations on the in-memory server -/

theorem fakeClient_storeLaws : StoreLaws fakeClient (fun s n => n ∈ s.crds) where
  create_ok := by
    intro crd s h
    show crd.Name ∈ (fakeCreate crd s).2.crds
    unfold fakeCreate
    by_cases hm : crd.Name ∈ s.crds <;> simp [hm]
  create_present := by
    intro crd s h
    refine ⟨⟨"already exists", StatusReason.AlreadyExists⟩, ?_, rfl⟩
    show (fakeCreate crd s).1 = _
    have hm : crd.Name ∈ s.crds := h
    simp [fakeCreate, hm]
  get_keeps := by
    intro n m s h
    show n ∈ (fakeGet m s).2.crds
    have hm : n ∈ s.crds := h
    unfold fakeGet
    split <;> simpa using hm
  version_keeps := by
    intro n s h
    show n ∈ (fakeServerVersion s).2.crds
    have hm : n ∈ s.crds := h
    unfold fakeServerVersion
    split <;> simpa using hm

theorem oldServer_below : VersionBelowMin fakeClient oldServer :=
  ⟨"v1.6.0", [1, 6, 0], rfl, rfl, rfl⟩

theorem settlingServer_accepted : VersionAccepted fakeClient settlingServer :=
  ⟨"v1.7.0", [1, 7, 0], rfl, rfl, rfl⟩

theorem downgradedServer_accepted : VersionAccepted fakeClient downgradedServer :=
  ⟨"v1.7.0", [1, 7, 0], rfl, rfl, rfl⟩

theorem emptyServer_accepted : VersionAccepted fakeClient emptyServer :=
  ⟨"v1.10.0", [1, 10, 0], rfl, rfl, rfl⟩

/-- C1 on a v1.6.0 server: the three operations fail after the version query alone. -/
theorem below_min_version_rejected_witness :
    VersionBelowMin fakeClient oldServer ∧
    EnsurePresent fakeClient fooConf [ClockEvent.Tick] ⟨oldServer, []⟩
      = (Outcome.Returned
          (some (Errorf "not a valid cluster version for CRDs (required >=1.7)")),
          ⟨oldServer, [Call.ServerVersion]⟩) ∧
    WaitToBePresent fakeClient "foos.example.com" crdReadyTimeout [ClockEvent.Tick]
        ⟨oldServer, []⟩
      = (Outcome.Returned
          (some (Errorf "not a valid cluster version for CRDs (required >=1.7)")),
          ⟨oldServer, [Call.ServerVersion]⟩) ∧
    Delete fakeClient "foos.example.com" ⟨oldServer, []⟩
      = (some (Errorf "not a valid cluster version for CRDs (required >=1.7)"),
          ⟨oldServer, [Call.ServerVersion]⟩) :=
  ⟨oldServer_below,
    (below_min_version_rejected fakeClient ⟨oldServer, []⟩ oldServer_below fooConf
      "foos.example.com" crdReadyTimeout [ClockEvent.Tick]).2⟩

/-- C2 on a server where the definition becomes visible at the third Get. -/
theorem waitToBePresent_polling_witness :
    VersionAccepted fakeClient settlingServer ∧
    WaitToBePresent fakeClient "foos.example.com" crdReadyTimeout
        [ClockEvent.Tick, ClockEvent.Tick, ClockEvent.Tick, ClockEvent.Deadline]
        ⟨settlingServer, []⟩
      = (Outcome.Returned none,
          ⟨⟨["v1.7.0"], ["foos.example.com"], 0⟩,
            [Call.ServerVersion, Call.After crdReadyTimeout, Call.NewTicker checkCRDInterval,
              Call.Get "foos.example.com", Call.Get "foos.example.com",
              Call.Get "foos.example.com"]⟩) ∧
    WaitToBePresent fakeClient "foos.example.com" crdReadyTimeout
        [ClockEvent.Tick, ClockEvent.Deadline, ClockEvent.Tick] ⟨settlingServer, []⟩
      = (Outcome.Returned (some (Errorf "timeout waiting for CRD")),
          ⟨⟨["v1.7.0"], ["foos.example.com"], 1⟩,
            [Call.ServerVersion, Call.After crdReadyTimeout, Call.NewTicker checkCRDInterval,
              Call.Get "foos.example.com"]⟩) ∧
    WaitToBePresent fakeClient "foos.example.com" crdReadyTimeout
        [ClockEvent.Tick, ClockEvent.Tick] ⟨settlingServer, []⟩
      = (Outcome.Blocked,
          ⟨⟨["v1.7.0"], ["foos.example.com"], 0⟩,
            [Call.ServerVersion, Call.After crdReadyTimeout, Call.NewTicker checkCRDInterval,
              Call.Get "foos.example.com", Call.Get "foos.example.com"]⟩) :=
  ⟨settlingServer_accepted,
    (waitToBePresent_polling fakeClient "foos.example.com" crdReadyTimeout
      ⟨settlingServer, []⟩ settlingServer_accepted).1 2 [ClockEvent.Deadline] rfl rfl,
    (waitToBePresent_polling fakeClient "foos.example.com" crdReadyTimeout
      ⟨settlingServer, []⟩ settlingServer_accepted).2.1 1 [ClockEvent.Tick] rfl,
    (waitToBePresent_polling fakeClient "foos.example.com" crdReadyTimeout
      ⟨settlingServer, []⟩ settlingServer_accepted).2.2.1 2 rfl⟩

/-- C3 on the scenario of the specification: the derived name is "foos.example.com",
the Create answers AlreadyExists, and `EnsurePresent` returns no error after the
version query and the Create. -/
theorem ensurePresent_alreadyExists_witness :
    VersionAccepted fakeClient settlingServer ∧
    (crdOf fooConf).Name = "foos.example.com" ∧
    EnsurePresent fakeClient fooConf [ClockEvent.Tick, ClockEvent.Deadline]
        ⟨settlingServer, []⟩
      = (Outcome.Returned none,
          ⟨settlingServer, [Call.ServerVersion, Call.Create (crdOf fooConf)]⟩) :=
  ⟨settlingServer_accepted,
    ensurePresent_alreadyExists fakeClient fooConf [ClockEvent.Tick, ClockEvent.Deadline]
      ⟨settlingServer, []⟩ settlingServer_accepted
      ⟨"already exists", StatusReason.AlreadyExists⟩ rfl rfl⟩

/-- C4 on an empty server where the new definition does not become visible in time:
the first call creates it and times out, the second returns no error. -/
theorem ensurePresent_twice_witness :
    VersionAccepted fakeClient emptyServer ∧
    (EnsurePresent fakeClient fooConf [ClockEvent.Tick, ClockEvent.Deadline]
        ⟨emptyServer, []⟩).1
      = Outcome.Returned (some (Errorf "timeout waiting for CRD")) ∧
    (EnsurePresent fakeClient fooConf []
        (EnsurePresent fakeClient fooConf [ClockEvent.Tick, ClockEvent.Deadline]
          ⟨emptyServer, []⟩).2).1
      = Outcome.Returned none :=
  ⟨emptyServer_accepted, rfl,
    ensurePresent_twice fakeClient (fun s n => n ∈ s.crds) fakeClient_storeLaws fooConf
      [ClockEvent.Tick, ClockEvent.Deadline] [] ⟨emptyServer, []⟩ emptyServer_accepted rfl
      ⟨"v1.10.0", [1, 10, 0], rfl, rfl, rfl⟩⟩

/-- C7 (amended) on the server whose version drops to v1.6.0 after the first query:
one version query, then the timers and one Get, and no error. -/
theorem waitToBePresent_checks_version_once_witness :
    VersionAccepted fakeClient downgradedServer ∧
    (WaitToBePresent fakeClient "foos.example.com" crdReadyTimeout [ClockEvent.Tick]
        ⟨downgradedServer, []⟩).1
      ≠ Outcome.Returned
          (some (Errorf "not a valid cluster version for CRDs (required >=1.7)")) :=
  ⟨downgradedServer_accepted,
    (waitToBePresent_checks_version_once fakeClient "foos.example.com" crdReadyTimeout
      [ClockEvent.Tick] ⟨downgradedServer, []⟩ downgradedServer_accepted).2.2⟩

/-- C8 on the in-memory server: deleting a stored definition succeeds, deleting an
unknown one returns the remote not-found error, each after one version query and one
remote Delete. -/
theorem delete_propagates_witness :
    VersionAccepted fakeClient settlingServer ∧
    Delete fakeClient "foos.example.com" ⟨settlingServer, []⟩
      = (none, ⟨⟨["v1.7.0"], [], 2⟩, [Call.ServerVersion, Call.Delete "foos.example.com"]⟩) ∧
    Delete fakeClient "bars.example.com" ⟨settlingServer, []⟩
      = (some ⟨"not found", StatusReason.NotFound⟩,
          ⟨settlingServer, [Call.ServerVersion, Call.Delete "bars.example.com"]⟩) ∧
    Delete fakeClient "foos.example.com" ⟨oldServer, []⟩
      = (some errUnsupportedVersion, ⟨oldServer, [Call.ServerVersion]⟩) :=
  ⟨settlingServer_accepted,
    (delete_propagates fakeClient "foos.example.com" ⟨settlingServer, []⟩).2
      settlingServer_accepted,
    (delete_propagates fakeClient "bars.example.com" ⟨settlingServer, []⟩).2
      settlingServer_accepted,
    (delete_propagates fakeClient "foos.example.com" ⟨oldServer, []⟩).1
      errUnsupportedVersion rfl⟩

/-- C9 on a declaration with the status subresource only. -/
theorem createSubresources_spec_witness :
    createSubresources { fooConf with EnableStatusSubresource := true }
      = some ⟨some {}, none⟩ ∧
    ∃ sr, createSubresources { fooConf with EnableStatusSubresource := true } = some sr ∧
      (sr.Status.isSome = true ↔ true = true) ∧
      (sr.Scale.isSome = true ↔ (none : Option CustomResourceSubresourceScale).isSome = true) ∧
      sr.Scale = none :=
  ⟨rfl, (createSubresources_spec { fooConf with EnableStatusSubresource := true }).2
    (by decide)⟩

/-! ## Category defaulting -/

theorem currentCats_foldl (l : List String) (m : String → Option Bool) (k : String) :
    (l.foldl (fun m ca => fun k => if k = ca then some true else m k) m) k
      = if k ∈ l then some true else m k := by
  induction l generalizing m with
  | nil => simp
  | cons a t ih =>
    simp only [List.foldl_cons, ih, List.mem_cons]
    by_cases h1 : k ∈ t
    · simp [h1]
    · by_cases h2 : k = a <;> simp [h1, h2]

theorem currentCatsOf_isNone (cats : List String) (k : String) :
    (currentCatsOf cats k).isNone = decide (k ∉ cats) := by
  unfold currentCatsOf
  rw [currentCats_foldl]
  by_cases h : k ∈ cats <;> simp [h]

theorem addDefaultCategories_eq (cats : List String) :
    addDefaultCategories cats
      = cats ++ (["all", "kooper"].filter (fun d => decide (d ∉ cats))) := by
  unfold addDefaultCategories defCategories
  simp only [List.foldl_cons, List.foldl_nil, currentCatsOf_isNone]
  by_cases h1 : "all" ∈ cats <;> by_cases h2 : "kooper" ∈ cats <;>
    simp [List.filter, h1, h2]

/-- C5: `addDefaultCategories cats` is `cats`, unchanged and in order, followed by
those of the defaults "all" and "kooper" (in that order) that do not occur in `cats`;
so its elements are exactly those of `cats` together with "all" and "kooper". -/
theorem addDefaultCategories_spec (cats : List String) :
    addDefaultCategories cats
      = cats ++ (["all", "kooper"].filter (fun d => decide (d ∉ cats))) ∧
    ∀ s, s ∈ addDefaultCategories cats ↔ (s ∈ cats ∨ s = "all" ∨ s = "kooper") := by
  refine ⟨addDefaultCategories_eq cats, ?_⟩
  intro s
  rw [addDefaultCategories_eq]
  simp only [List.mem_append, List.mem_filter, List.mem_cons, List.mem_singleton,
    List.not_mem_nil, or_false, decide_eq_true_eq]
  constructor
  · rintro (h | ⟨h, -⟩)
    · exact Or.inl h
    · exact Or.inr h
  · rintro (h | h)
    · exact Or.inl h
    · by_cases hm : s ∈ cats
      · exact Or.inl hm
      · exact Or.inr ⟨h, hm⟩

/-- C6 (as stated, refuted): for the input ["a", "a"] the result of
`addDefaultCategories` is ["a", "a", "all", "kooper"], in which "a" occurs twice. -/
theorem addDefaultCategories_duplicates_kept :
    addDefaultCategories ["a", "a"] = ["a", "a", "all", "kooper"] ∧
    ¬ (addDefaultCategories ["a", "a"]).Nodup := by
  have h : addDefaultCategories ["a", "a"] = ["a", "a", "all", "kooper"] := by
    rw [addDefaultCategories_eq]
    decide
  refine ⟨h, ?_⟩
  rw [h]
  decide

/-- C6 (amended): the result of `addDefaultCategories` has no duplicates exactly when
the input has none: the function adds no duplicate and removes none. -/
theorem addDefaultCategories_nodup_iff (cats : List String) :
    (addDefaultCategories cats).Nodup ↔ cats.Nodup := by
  rw [addDefaultCategories_eq, List.nodup_append]
  constructor
  · intro h
    exact h.1
  · intro h
    refine ⟨h, ?_, ?_⟩
    · exact List.Nodup.filter _ (by decide)
    · intro a ha hb
      simp only [List.mem_filter, decide_eq_true_eq] at hb
      exact hb.2 ha

end Crd

namespace Controller

/-! ## The retry budget of the controller -/

theorem sameFor_refl (k : String) (q : WorkQueue) : SameFor k q q :=
  ⟨rfl, Iff.rfl, rfl, rfl⟩

theorem sameFor_trans (k : String) (q q2 q3 : WorkQueue) (h1 : SameFor k q q2)
    (h2 : SameFor k q2 q3) : SameFor k q q3 :=
  ⟨h2.1.trans h1.1, h2.2.1.trans h1.2.1, h2.2.2.1.trans h1.2.2.1, h2.2.2.2.trans h1.2.2.2⟩

theorem sameFor_mem_items (k : String) (q q2 : WorkQueue) (h : SameFor k q q2) :
    k ∈ q2.items ↔ k ∈ q.items := by
  rw [← List.count_pos_iff, ← List.count_pos_iff, h.1]

theorem credit_same (cfg : Config) (k : String) (q q2 : WorkQueue) (h : SameFor k q q2) :
    credit cfg q2 k = credit cfg q k := by
  have hi := sameFor_mem_items k q q2 h
  unfold credit
  simp only [hi, h.2.1, h.2.2.1, h.2.2.2]

theorem keyInv_same (cfg : Config) (k : String) (q q2 : WorkQueue) (h a d : Nat)
    (hs : SameFor k q q2) (hi : KeyInv cfg k q h a d) : KeyInv cfg k q2 h a d := by
  have hm := sameFor_mem_items k q q2 hs
  have hc := credit_same cfg k q q2 hs
  refine ⟨?_, ?_, ?_, ?_, ?_, ?_, ?_⟩
  · rw [hs.1]; exact hi.once
  · rw [hs.2.1, hm]; exact hi.excl
  · rw [hs.2.2.1, hs.2.1]; exact hi.dirtyProc
  · rw [hs.2.2.2]; exact hi.bounded
  · rw [hc]; exact hi.bound
  · rw [hm, hs.2.1, hs.2.2.2]; exact hi.exact0
  · rw [hm, hs.2.1, hs.2.2.1, hc]; exact hi.exact1

theorem add_sameFor (k j : String) (q : WorkQueue) (hne : k ≠ j) : SameFor k q (q.Add j) := by
  unfold WorkQueue.Add
  split
  · exact sameFor_refl k q
  · split
    · exact ⟨rfl, Iff.rfl, by simp [hne], rfl⟩
    · refine ⟨?_, Iff.rfl, rfl, rfl⟩
      simp [List.count_append, hne, Ne.symm hne]

theorem done_sameFor (k j : String) (q : WorkQueue) (hne : k ≠ j) : SameFor k q (q.Done j) := by
  unfold WorkQueue.Done
  refine ⟨?_, ?_, ?_, rfl⟩
  · split <;> simp [List.count_append, hne, Ne.symm hne]
  · simp [List.mem_filter, hne]
  · simp [hne]

theorem forget_sameFor (k j : String) (q : WorkQueue) (hne : k ≠ j) :
    SameFor k q (q.Forget j) :=
  ⟨rfl, Iff.rfl, rfl, by simp [WorkQueue.Forget, hne]⟩

theorem addRateLimited_sameFor (k j : String) (q : WorkQueue) (hne : k ≠ j) :
    SameFor k q (q.AddRateLimited j) := by
  have h := add_sameFor k j q hne
  exact ⟨h.1, h.2.1, h.2.2.1, by simp [WorkQueue.AddRateLimited, hne]⟩

theorem get_sameFor (k j : String) (rest : List String) (q : WorkQueue) (hne : k ≠ j)
    (hq : q.items = j :: rest) :
    SameFor k q { q with items := rest, processing := q.processing ++ [j] } := by
  refine ⟨?_, ?_, rfl, rfl⟩
  · simp [hq, hne, Ne.symm hne]
  · simp [hne]

theorem keyInv_add_self (cfg : Config) (k : String) (q : WorkQueue) (h a d : Nat)
    (hi : KeyInv cfg k q h a d) : KeyInv cfg k (q.Add k) h (a + 1) d := by
  have hb := hi.bound
  have hr := hi.bounded
  by_cases hw : k ∈ q.items
  · have hq : q.Add k = q := by simp [WorkQueue.Add, hw]
    rw [hq]
    refine ⟨hi.once, hi.excl, hi.dirtyProc, hi.bounded, ?_, ?_, ?_⟩
    · rw [Nat.mul_succ]; omega
    · intro h0; omega
    · intro h1
      have h0 : a = 0 := by omega
      exact absurd hw (hi.exact0 h0).1
  · by_cases hp : k ∈ q.processing
    · have hq : q.Add k = { q with dirty := fun j => if j = k then true else q.dirty j } := by
        simp [WorkQueue.Add, hw, hp]
      rw [hq]
      refine ⟨hi.once, hi.excl, fun _ => hp, hi.bounded, ?_, ?_, ?_⟩
      · simp only [credit, hw, hp, if_true, if_false]
        rw [Nat.mul_succ]
        omega
      · intro h0; omega
      · intro h1
        have h0 : a = 0 := by omega
        exact absurd hp (hi.exact0 h0).2.1
    · have hq : q.Add k = { q with items := q.items ++ [k] } := by
        simp [WorkQueue.Add, hw, hp]
      have hd : q.dirty k = false := by
        cases hdk : q.dirty k with
        | false => rfl
        | true => exact absurd (hi.dirtyProc hdk) hp
      have hc0 : credit cfg q k = 0 := by simp [credit, hw, hp]
      rw [hq]
      refine ⟨?_, ?_, ?_, hi.bounded, ?_, ?_, ?_⟩
      · simp [List.count_append, List.count_eq_zero_of_not_mem hw]
      · intro hp2; exact absurd hp2 hp
      · intro hd2; exact hi.dirtyProc hd2
      · simp only [credit, List.mem_append, List.mem_singleton, or_true, if_true]
        rw [Nat.mul_succ]
        omega
      · intro h0; omega
      · intro h1
        have h0 : a = 0 := by omega
        obtain ⟨-, -, hr0, hd0⟩ := hi.exact0 h0
        rw [h0] at hb
        refine ⟨hd, ?_, ?_, fun _ => hd0⟩
        · simp only [credit, List.mem_append, List.mem_singleton, or_true, if_true, hr0]
          omega
        · intro hn
          exact absurd (List.mem_append_right _ (List.mem_singleton_self k)) hn

theorem keyInv_mono (cfg : Config) (k : String) (q : WorkQueue) (h a d : Nat)
    (hi : KeyInv cfg k q h a d) (hw : k ∈ q.items) : KeyInv cfg k q h (a + 1) d := by
  have := keyInv_add_self cfg k q h a d hi
  have hq : q.Add k = q := by simp [WorkQueue.Add, hw]
  rw [hq] at this
  exact this

theorem keyInv_source_add (cfg : Config) (k j : String) (q : WorkQueue) (h a d : Nat)
    (hi : KeyInv cfg k q h a d) : KeyInv cfg k (q.Add j) h (a + [j].count k) d := by
  by_cases hkj : k = j
  · subst hkj
    simpa using keyInv_add_self cfg k q h a d hi
  · have : [j].count k = 0 := List.count_eq_zero_of_not_mem (by simpa using hkj)
    rw [this]
    exact keyInv_same cfg k q _ h a d (add_sameFor k j q hkj) hi

theorem keyInv_source_addAll (cfg : Config) (k : String) (l : List String) (q : WorkQueue)
    (h a d : Nat) (hi : KeyInv cfg k q h a d) :
    KeyInv cfg k (l.foldl WorkQueue.Add q) h (a + l.count k) d := by
  induction l generalizing q a with
  | nil => simpa using hi
  | cons j t ih =>
    have h1 := keyInv_source_add cfg k j q h a d hi
    have h2 := ih (q.Add j) (a + [j].count k) h1
    have hc : a + [j].count k + t.count k = a + (j :: t).count k := by
      rw [List.count_cons, List.count_cons, List.count_nil]
      omega
    rw [hc] at h2
    exact h2

theorem keyInv_take_self (cfg : Config) (k : String) (rest : List String) (q : WorkQueue)
    (h a d : Nat) (hi : KeyInv cfg k q h a d) (hq : q.items = k :: rest) :
    KeyInv cfg k { q with items := rest, processing := q.processing ++ [k] } (h + 1) a d := by
  have hw : k ∈ q.items := by rw [hq]; exact List.mem_cons_self _ _
  have hp : k ∉ q.processing := fun hp => hi.excl hp hw
  have hd : q.dirty k = false := by
    cases hdk : q.dirty k with
    | false => rfl
    | true => exact absurd (hi.dirtyProc hdk) hp
  have hone := hi.once
  rw [hq] at hone
  have hrest : k ∉ rest := by
    intro hm
    have := List.count_pos_iff.mpr hm
    simp at hone
    omega
  have hr := hi.bounded
  have hc : credit cfg q k = cfg.MaxRetries + 1 - q.requeues k := by simp [credit, hw]
  have hc2 : credit cfg { q with items := rest, processing := q.processing ++ [k] } k
      = cfg.MaxRetries - q.requeues k := by
    simp [credit, hrest, hd]
  have hb := hi.bound
  refine ⟨?_, ?_, ?_, hi.bounded, ?_, ?_, ?_⟩
  · simp [List.count_eq_zero_of_not_mem hrest]
  · intro _; exact hrest
  · intro _; simp
  · rw [hc2]; rw [hc] at hb; omega
  · intro h0; exact absurd hw (hi.exact0 h0).1
  · intro h1
    obtain ⟨-, he, -, hd0⟩ := hi.exact1 h1
    refine ⟨hd, ?_, ?_, fun _ => hd0 (Or.inl hw)⟩
    · rw [hc2]; rw [hc] at he; omega
    · intro _ hn
      exact absurd (List.mem_append_right _ (List.mem_singleton_self k)) hn

theorem return_self_sameFor (k : String) (rest : List String) (q : WorkQueue)
    (hq : q.items = k :: rest) (hrest : k ∉ rest) (hp : k ∉ q.processing)
    (hd : q.dirty k = false) :
    SameFor k q
      ((WorkQueue.Add { q with items := rest, processing := q.processing ++ [k] } k).Done k) := by
  have ha : WorkQueue.Add { q with items := rest, processing := q.processing ++ [k] } k
      = { items := rest, processing := q.processing ++ [k],
          dirty := fun j => if j = k then true else q.dirty j, requeues := q.requeues } := by
    simp [WorkQueue.Add, hrest]
  rw [ha]
  refine ⟨?_, ?_, ?_, rfl⟩
  · simp [WorkQueue.Done, hq, List.count_append]
  · simp [WorkQueue.Done, List.mem_filter, hp]
  · simp [WorkQueue.Done, hd]

theorem keyInv_drop_self (cfg : Config) (k : String) (q : WorkQueue) (h a d : Nat)
    (hi : KeyInv cfg k q h a d) (hp : k ∈ q.processing)
    (hlt : cfg.MaxRetries < q.requeues k + 1) :
    KeyInv cfg k ((q.Forget k).Done k) h a (d + 1) := by
  have hw : k ∉ q.items := hi.excl hp
  have hr := hi.bounded
  have hb := hi.bound
  have hpn : k ∉ ((q.Forget k).Done k).processing := by
    simp [WorkQueue.Done, WorkQueue.Forget, List.mem_filter]
  have hdn : ((q.Forget k).Done k).dirty k = false := by simp [WorkQueue.Done]
  have hrn : ((q.Forget k).Done k).requeues k = 0 := by simp [WorkQueue.Done, WorkQueue.Forget]
  cases hd : q.dirty k with
  | true =>
    have hin : ((q.Forget k).Done k).items = q.items ++ [k] := by
      simp [WorkQueue.Done, WorkQueue.Forget, hd]
    have hc : credit cfg q k = cfg.MaxRetries + 1 := by simp [credit, hw, hp, hd]
    have hcn : credit cfg ((q.Forget k).Done k) k = cfg.MaxRetries + 1 := by
      simp [credit, hin, hrn]
    refine ⟨?_, ?_, ?_, ?_, ?_, ?_, ?_⟩
    · rw [hin]; simp [List.count_append, List.count_eq_zero_of_not_mem hw]
    · intro hp2; exact absurd hp2 hpn
    · intro hd2; rw [hdn] at hd2; exact absurd hd2 Bool.false_ne_true
    · rw [hrn]; exact Nat.zero_le _
    · rw [hcn]; rw [hc] at hb; exact hb
    · intro h0; exact absurd hp (hi.exact0 h0).2.1
    · intro h1
      have := (hi.exact1 h1).1
      rw [hd] at this
      exact absurd this (by decide)
  | false =>
    have hin : ((q.Forget k).Done k).items = q.items := by
      simp [WorkQueue.Done, WorkQueue.Forget, hd]
    have hc : credit cfg q k = cfg.MaxRetries - q.requeues k := by simp [credit, hw, hp, hd]
    have hcn : credit cfg ((q.Forget k).Done k) k = 0 := by
      simp only [credit, hin, hw, hpn, if_false]
    refine ⟨?_, ?_, ?_, ?_, ?_, ?_, ?_⟩
    · rw [hin]; exact hi.once
    · intro hp2; exact absurd hp2 hpn
    · intro hd2; rw [hdn] at hd2; exact absurd hd2 Bool.false_ne_true
    · rw [hrn]; exact Nat.zero_le _
    · rw [hcn]; omega
    · intro h0; exact absurd hp (hi.exact0 h0).2.1
    · intro h1
      obtain ⟨-, he, -, hd0⟩ := hi.exact1 h1
      have hd00 := hd0 (Or.inr hp)
      rw [hc] at he
      refine ⟨hdn, ?_, ?_, ?_⟩
      · rw [hcn]; omega
      · intro _ _; omega
      · rw [hin]
        rintro (h2 | h2)
        · exact absurd h2 hw
        · exact absurd h2 hpn

theorem keyInv_requeue_self (cfg : Config) (k : String) (q : WorkQueue) (h a d : Nat)
    (hi : KeyInv cfg k q h a d) (hp : k ∈ q.processing)
    (hle : ¬ cfg.MaxRetries < q.requeues k + 1) :
    KeyInv cfg k ((q.AddRateLimited k).Done k) h a d := by
  have hw : k ∉ q.items := hi.excl hp
  have hr := hi.bounded
  have hb := hi.bound
  have hpn : k ∉ ((q.AddRateLimited k).Done k).processing := by
    simp [WorkQueue.Done, List.mem_filter]
  have hdn : ((q.AddRateLimited k).Done k).dirty k = false := by simp [WorkQueue.Done]
  have hrn : ((q.AddRateLimited k).Done k).requeues k = q.requeues k + 1 := by
    simp [WorkQueue.Done, WorkQueue.AddRateLimited]
  have hin : ((q.AddRateLimited k).Done k).items = q.items ++ [k] := by
    simp [WorkQueue.Done, WorkQueue.AddRateLimited, WorkQueue.Add, hw, hp]
  have hcn : credit cfg ((q.AddRateLimited k).Done k) k
      = cfg.MaxRetries + 1 - (q.requeues k + 1) := by
    simp [credit, hin, hrn]
  have hc : cfg.MaxRetries - q.requeues k ≤ credit cfg q k := by
    cases hd : q.dirty k with
    | false => simp [credit, hw, hp, hd]
    | true =>
      simp only [credit, hw, hp, hd, if_true, if_false]
      omega
  refine ⟨?_, ?_, ?_, ?_, ?_, ?_, ?_⟩
  · rw [hin]; simp [List.count_append, List.count_eq_zero_of_not_mem hw]
  · intro hp2; exact absurd hp2 hpn
  · intro hd2; rw [hdn] at hd2; exact absurd hd2 Bool.false_ne_true
  · rw [hrn]; omega
  · rw [hcn]; omega
  · intro h0; exact absurd hp (hi.exact0 h0).2.1
  · intro h1
    obtain ⟨hd, he, -, hd0⟩ := hi.exact1 h1
    have hce : credit cfg q k = cfg.MaxRetries - q.requeues k := by
      simp [credit, hw, hp, hd]
    rw [hce] at he
    refine ⟨hdn, ?_, ?_, fun _ => hd0 (Or.inr hp)⟩
    · rw [hcn]; omega
    · intro hn
      rw [hin] at hn
      exact absurd (List.mem_append_right _ (List.mem_singleton_self k)) hn

theorem inv_step (cfg : Config) (handler : String → Nat → Bool) (k : String)
    (hfail : ∀ n, handler k n = false) (ev : Event) (st : State) (hi : Inv cfg k st) :
    Inv cfg k (step cfg handler ev st) := by
  unfold Inv at hi ⊢
  cases ev with
  | informer j del =>
    simp only [step, List.count_append]
    exact keyInv_source_add cfg k j _ _ _ _ hi
  | elapse =>
    simp only [step]
    split
    · simp only [List.count_append]
      exact keyInv_source_addAll cfg k _ _ _ _ _ hi
    · exact hi
  | take leader =>
    simp only [step]
    split
    · exact hi
    · cases hq : st.queue.items with
      | nil => simpa [WorkQueue.Get, hq] using hi
      | cons j rest =>
        simp only [WorkQueue.Get, hq]
        by_cases hkj : k = j
        · subst hkj
          have hw : k ∈ st.queue.items := by rw [hq]; exact List.mem_cons_self _ _
          have hp : k ∉ st.queue.processing := fun hp => hi.excl hp hw
          have hd : st.queue.dirty k = false := by
            cases hdk : st.queue.dirty k with
            | false => rfl
            | true => exact absurd (hi.dirtyProc hdk) hp
          have hone := hi.once
          rw [hq] at hone
          have hrest : k ∉ rest := by
            intro hm
            have := List.count_pos_iff.mpr hm
            simp at hone
            omega
          cases leader with
          | false =>
            simp only [Bool.not_false, if_true]
            exact keyInv_same cfg k _ _ _ _ _
              (return_self_sameFor k rest st.queue hq hrest hp hd) hi
          | true =>
            simp only [Bool.not_true, Bool.false_eq_true, if_false, List.count_append,
              List.count_singleton_self]
            exact keyInv_take_self cfg k rest st.queue _ _ _ hi hq
        · have hs := get_sameFor k j rest st.queue hkj hq
          cases leader with
          | false =>
            simp only [Bool.not_false, if_true]
            exact keyInv_same cfg k _ _ _ _ _
              (sameFor_trans k _ _ _ hs
                (sameFor_trans k _ _ _ (add_sameFor k j _ hkj) (done_sameFor k j _ hkj))) hi
          | true =>
            have hc : [j].count k = 0 := List.count_eq_zero_of_not_mem (by simpa using hkj)
            simp only [Bool.not_true, Bool.false_eq_true, if_false, List.count_append, hc,
              Nat.add_zero]
            exact keyInv_same cfg k _ _ _ _ _ hs hi
  | finish i =>
    simp only [step]
    cases hg : st.queue.processing[i]? with
    | none => exact hi
    | some j =>
      have hj : j ∈ st.queue.processing := List.getElem?_mem hg
      simp only []
      by_cases hkj : k = j
      · subst hkj
        simp only [hfail, Bool.false_eq_true, if_false]
        have hn : (st.queue.AddRateLimited k).NumRequeues k = st.queue.requeues k + 1 := by
          simp [WorkQueue.NumRequeues, WorkQueue.AddRateLimited]
        rw [hn]
        by_cases hlt : cfg.MaxRetries < st.queue.requeues k + 1
        · simp only [gt_iff_lt, hlt, if_true, List.count_append, List.count_singleton_self]
          exact keyInv_drop_self cfg k st.queue _ _ _ hi hj hlt
        · simp only [gt_iff_lt, hlt, if_false]
          exact keyInv_requeue_self cfg k st.queue _ _ _ hi hj hlt
      · have hc : [j].count k = 0 := List.count_eq_zero_of_not_mem (by simpa using hkj)
        have h1 := sameFor_trans k _ _ _ (forget_sameFor k j st.queue hkj)
          (done_sameFor k j _ hkj)
        have h2 := sameFor_trans k _ _ _ (addRateLimited_sameFor k j st.queue hkj)
          (done_sameFor k j _ hkj)
        split
        · exact keyInv_same cfg k _ _ _ _ _ h1 hi
        · split
          · simp only [List.count_append, hc, Nat.add_zero]
            exact keyInv_same cfg k _ _ _ _ _ h1 hi
          · exact keyInv_same cfg k _ _ _ _ _ h2 hi

theorem inv_run (cfg : Config) (handler : String → Nat → Bool) (k : String)
    (hfail : ∀ n, handler k n = false) (evs : List Event) (st : State) (hi : Inv cfg k st) :
    Inv cfg k (run cfg handler evs st) := by
  induction evs generalizing st with
  | nil => exact hi
  | cons ev evs ih => exact ih _ (inv_step cfg handler k hfail ev st hi)

theorem inv_started (cfg : Config) (k : String) : Inv cfg k started := by
  refine ⟨?_, ?_, ?_, ?_, ?_, ?_, ?_⟩ <;> simp [started, credit]

theorem run_append (cfg : Config) (handler : String → Nat → Bool) (evs1 evs2 : List Event)
    (st : State) :
    run cfg handler (evs1 ++ evs2) st = run cfg handler evs2 (run cfg handler evs1 st) := by
  induction evs1 generalizing st with
  | nil => rfl
  | cons ev evs ih => exact ih _

theorem iteration_nil (cfg : Config) (handler : String → Nat → Bool) (st : State)
    (hidle : st.queue.processing = []) (hq : st.queue.items = []) :
    step cfg handler (Event.finish 0) (step cfg handler (Event.take true) st) = st := by
  have h1 : step cfg handler (Event.take true) st = st := by
    simp [step, WorkQueue.Get, hq]
  rw [h1]
  simp [step, hidle]

theorem iteration_cons (cfg : Config) (handler : String → Nat → Bool) (st : State)
    (j : String) (t : List String) (hw : 1 ≤ cfg.ConcurrentWorkers)
    (hidle : st.queue.processing = []) (hq : st.queue.items = j :: t) (hj : j ∉ t)
    (hd : st.queue.dirty j = false) :
    (step cfg handler (Event.finish 0) (step cfg handler (Event.take true) st)).queue.processing
        = [] ∧
    (∀ i, (step cfg handler (Event.finish 0)
        (step cfg handler (Event.take true) st)).queue.dirty i = st.queue.dirty i) ∧
    (step cfg handler (Event.finish 0) (step cfg handler (Event.take true) st)).sourced
        = st.sourced ∧
    (∀ i, i ≠ j → (step cfg handler (Event.finish 0)
        (step cfg handler (Event.take true) st)).queue.requeues i = st.queue.requeues i) ∧
    ((step cfg handler (Event.finish 0) (step cfg handler (Event.take true) st)).queue.items
        = t ∨
      ((step cfg handler (Event.finish 0) (step cfg handler (Event.take true) st)).queue.items
          = t ++ [j] ∧
        (step cfg handler (Event.finish 0)
          (step cfg handler (Event.take true) st)).queue.requeues j = st.queue.requeues j + 1 ∧
        st.queue.requeues j + 1 ≤ cfg.MaxRetries)) := by
  have h1 : step cfg handler (Event.take true) st
      = { st with
          queue := { st.queue with items := t, processing := [j] }
          handled := st.handled ++ [j] } := by
    have : ¬ cfg.ConcurrentWorkers ≤ 0 := by omega
    simp [step, WorkQueue.Get, hq, hidle, this]
  rw [h1]
  simp only [step, List.getElem?_cons_zero]
  have hn : (WorkQueue.AddRateLimited { st.queue with items := t, processing := [j] }
      j).NumRequeues j = st.queue.requeues j + 1 := by
    simp [WorkQueue.NumRequeues, WorkQueue.AddRateLimited]
  rw [hn]
  have hdi : ∀ i, (if i = j then false else st.queue.dirty i) = st.queue.dirty i := by
    intro i
    by_cases hij : i = j
    · simp [hij, hd]
    · simp [hij]
  split
  · refine ⟨?_, ?_, rfl, ?_, Or.inl ?_⟩
    · simp [WorkQueue.Done, WorkQueue.Forget]
    · intro i; simp [WorkQueue.Done, WorkQueue.Forget, hdi]
    · intro i hij; simp [WorkQueue.Done, WorkQueue.Forget, hij]
    · simp [WorkQueue.Done, WorkQueue.Forget, hd]
  · split
    · refine ⟨?_, ?_, rfl, ?_, Or.inl ?_⟩
      · simp [WorkQueue.Done, WorkQueue.Forget]
      · intro i; simp [WorkQueue.Done, WorkQueue.Forget, hdi]
      · intro i hij; simp [WorkQueue.Done, WorkQueue.Forget, hij]
      · simp [WorkQueue.Done, WorkQueue.Forget, hd]
    · rename_i hlt
      refine ⟨?_, ?_, rfl, ?_, Or.inr ⟨?_, ?_, ?_⟩⟩
      · simp [WorkQueue.Done, WorkQueue.AddRateLimited, WorkQueue.Add, hj]
      · intro i
        by_cases hij : i = j
        · simp [WorkQueue.Done, WorkQueue.AddRateLimited, WorkQueue.Add, hj, hij, hd]
        · simp [WorkQueue.Done, WorkQueue.AddRateLimited, WorkQueue.Add, hj, hij]
      · intro i hij
        simp [WorkQueue.Done, WorkQueue.AddRateLimited, hij]
      · simp [WorkQueue.Done, WorkQueue.AddRateLimited, WorkQueue.Add, hj]
      · simp [WorkQueue.Done, WorkQueue.AddRateLimited]
      · omega

theorem drainInv_iteration (cfg : Config) (handler : String → Nat → Bool) (st : State)
    (hw : 1 ≤ cfg.ConcurrentWorkers) (hi : DrainInv cfg st) :
    DrainInv cfg (step cfg handler (Event.finish 0) (step cfg handler (Event.take true) st)) ∧
    (step cfg handler (Event.finish 0) (step cfg handler (Event.take true) st)).sourced
      = st.sourced ∧
    (st.queue.items ≠ [] →
      budget cfg (step cfg handler (Event.finish 0)
          (step cfg handler (Event.take true) st)).queue < budget cfg st.queue) := by
  cases hq : st.queue.items with
  | nil =>
    rw [iteration_nil cfg handler st hi.idle hq]
    exact ⟨hi, rfl, fun h => absurd rfl h⟩
  | cons j t =>
    have hnd := hi.nodup
    rw [hq] at hnd
    have hj : j ∉ t := (List.nodup_cons.mp hnd).1
    have ht : t.Nodup := (List.nodup_cons.mp hnd).2
    have hbj : st.queue.requeues j ≤ cfg.MaxRetries :=
      hi.bounded j (by rw [hq]; exact List.mem_cons_self _ _)
    have hb : ∀ i ∈ t, st.queue.requeues i ≤ cfg.MaxRetries := fun i hit =>
      hi.bounded i (by rw [hq]; exact List.mem_cons_of_mem _ hit)
    have hne : ∀ i ∈ t, i ≠ j := fun i hit heq => hj (heq ▸ hit)
    obtain ⟨hp, hd, hs, hr, hc⟩ :=
      iteration_cons cfg handler st j t hw hi.idle hq hj (hi.clean j)
    have hmap : (t.map (fun i => cfg.MaxRetries + 1 - (step cfg handler (Event.finish 0)
          (step cfg handler (Event.take true) st)).queue.requeues i)).sum
        = (t.map (fun i => cfg.MaxRetries + 1 - st.queue.requeues i)).sum := by
      congr 1
      exact List.map_congr_left (fun i hit => by rw [hr i (hne i hit)])
    have hold : budget cfg st.queue
        = (cfg.MaxRetries + 1 - st.queue.requeues j)
          + (t.map (fun i => cfg.MaxRetries + 1 - st.queue.requeues i)).sum := by
      simp [budget, hq]
    refine ⟨⟨hp, ?_, fun i => (hd i).trans (hi.clean i), ?_⟩, hs, fun _ => ?_⟩
    · rcases hc with h | ⟨h, -, -⟩
      · rw [h]; exact ht
      · rw [h, List.nodup_append]
        refine ⟨ht, List.nodup_singleton j, ?_⟩
        intro a ha hb2
        rw [List.mem_singleton] at hb2
        exact hj (hb2 ▸ ha)
    · intro i hit
      rcases hc with h | ⟨h, hrj, hle⟩
      · rw [h] at hit
        rw [hr i (hne i hit)]
        exact hb i hit
      · rw [h, List.mem_append, List.mem_singleton] at hit
        by_cases hij : i = j
        · rw [hij, hrj]; exact hle
        · rcases hit with h1 | h1
          · rw [hr i hij]; exact hb i h1
          · exact absurd h1 hij
    · rw [hold]
      rcases hc with h | ⟨h, hrj, hle⟩
      · simp only [budget, h]
        rw [hmap]
        omega
      · simp only [budget, h, List.map_append, List.sum_append, List.map_cons, List.map_nil,
          List.sum_cons, List.sum_nil]
        rw [hmap, hrj]
        omega

theorem budget_zero (cfg : Config) (st : State) (h : DrainInv cfg st)
    (hz : budget cfg st.queue = 0) : st.queue.items = [] := by
  cases hi : st.queue.items with
  | nil => rfl
  | cons j t =>
    have hbj : st.queue.requeues j ≤ cfg.MaxRetries :=
      h.bounded j (by rw [hi]; exact List.mem_cons_self _ _)
    simp only [budget, hi, List.map_cons, List.sum_cons] at hz
    omega

theorem iterations_drain (cfg : Config) (handler : String → Nat → Bool)
    (hw : 1 ≤ cfg.ConcurrentWorkers) (n : Nat) (st : State) (h : DrainInv cfg st)
    (hb : budget cfg st.queue ≤ n) :
    (run cfg handler (iterations n) st).queue.items = [] ∧
    (run cfg handler (iterations n) st).queue.processing = [] ∧
    (run cfg handler (iterations n) st).sourced = st.sourced := by
  induction n generalizing st with
  | zero =>
    show st.queue.items = [] ∧ st.queue.processing = [] ∧ st.sourced = st.sourced
    exact ⟨budget_zero cfg st h (Nat.le_zero.mp hb), h.idle, rfl⟩
  | succ n ih =>
    simp only [iterations, run]
    obtain ⟨hi2, hs, hlt⟩ := drainInv_iteration cfg handler st hw h
    by_cases hne : st.queue.items = []
    · rw [iteration_nil cfg handler st h.idle hne]
      have hz : budget cfg st.queue = 0 := by simp [budget, hne]
      exact ih st h (by omega)
    · have := hlt hne
      obtain ⟨h1, h2, h3⟩ := ih _ hi2 (by omega)
      exact ⟨h1, h2, h3.trans hs⟩

theorem arrivals_run (cfg : Config) (handler : String → Nat → Bool) (keys : List String)
    (st : State) (hidle : st.queue.processing = []) (hnd : (st.queue.items ++ keys).Nodup) :
    (run cfg handler (arrivals keys) st).queue
        = { st.queue with items := st.queue.items ++ keys } ∧
    (run cfg handler (arrivals keys) st).sourced = st.sourced ++ keys := by
  induction keys generalizing st with
  | nil => simp [arrivals, run]
  | cons j t ih =>
    have hj : j ∉ st.queue.items := by
      intro hm
      have := (List.nodup_append.mp hnd).2.2
      exact this hm (List.mem_cons_self _ _)
    have hq : (step cfg handler (Event.informer j false) st).queue
        = { st.queue with items := st.queue.items ++ [j] } := by
      simp [step, WorkQueue.Add, hj, hidle]
    have hs : (step cfg handler (Event.informer j false) st).sourced = st.sourced ++ [j] := by
      simp [step]
    have hnd2 : ((step cfg handler (Event.informer j false) st).queue.items ++ t).Nodup := by
      rw [hq]
      simpa using hnd
    have hidle2 : (step cfg handler (Event.informer j false) st).queue.processing = [] := by
      rw [hq]; exact hidle
    obtain ⟨h1, h2⟩ := ih (step cfg handler (Event.informer j false) st) hidle2 hnd2
    simp only [arrivals, List.map_cons, run]
    refine ⟨?_, ?_⟩
    · have := h1
      simp only [arrivals] at this
      rw [this, hq]
      simp
    · have := h2
      simp only [arrivals] at this
      rw [this, hs]
      simp

theorem handled_count_step (cfg : Config) (handler : String → Nat → Bool) (k : String)
    (ev : Event) (st : State) :
    st.handled.count k ≤ (step cfg handler ev st).handled.count k := by
  cases ev with
  | informer j del => simp [step]
  | elapse =>
    simp only [step]
    split <;> simp
  | take leader =>
    simp only [step]
    split
    · exact Nat.le_refl _
    · split
      · exact Nat.le_refl _
      · split
        · exact Nat.le_refl _
        · simp [List.count_append]
  | finish i =>
    simp only [step]
    split
    · exact Nat.le_refl _
    · split
      · exact Nat.le_refl _
      · split <;> exact Nat.le_refl _

theorem handled_count_run (cfg : Config) (handler : String → Nat → Bool) (k : String)
    (evs : List Event) (st : State) :
    st.handled.count k ≤ (run cfg handler evs st).handled.count k := by
  induction evs generalizing st with
  | nil => exact Nat.le_refl _
  | cons ev evs ih => exact Nat.le_trans (handled_count_step cfg handler k ev st) (ih _)

/-- C10 (as stated, refuted): with two retries, a handler that always fails and
leadership held, the handler is invoked three times for the key "default/a" and the key
is dropped; at the next resync the event source enqueues the key again, and the handler
is invoked for it three more times. -/
theorem resync_reinvokes_dropped_key :
    (run ⟨"ctrl", 2, 2, 1⟩ (fun _ _ => false) (arrivals ["default/a"] ++ iterations 3)
        started).handled = ["default/a", "default/a", "default/a"] ∧
    (run ⟨"ctrl", 2, 2, 1⟩ (fun _ _ => false) (arrivals ["default/a"] ++ iterations 3)
        started).dropped = ["default/a"] ∧
    (run ⟨"ctrl", 2, 2, 1⟩ (fun _ _ => false) (arrivals ["default/a"] ++ iterations 3)
        started).queue.items = [] ∧
    (run ⟨"ctrl", 2, 2, 1⟩ (fun _ _ => false)
        (arrivals ["default/a"] ++ iterations 3 ++ [Event.elapse, Event.elapse] ++ iterations 3)
        started).handled.count "default/a" = 6 ∧
    ¬ (run ⟨"ctrl", 2, 2, 1⟩ (fun _ _ => false)
        (arrivals ["default/a"] ++ iterations 3 ++ [Event.elapse, Event.elapse] ++ iterations 3)
        started).handled.count "default/a" = 2 + 1 := by
  decide

/-- C10 (amended): for a key whose handler always fails, in every run of the controller
(any events of the event source, any number of workers, any interleaving, any
leadership), (i) the handler is invoked for the key at most `MaxRetries + 1` times for
each time the event source enqueues the key; (ii) while the event source has enqueued
the key once, the handler has been invoked for it at most `MaxRetries + 1` times, and
when the key is neither waiting nor in flight the handler has been invoked exactly
`MaxRetries + 1` times and the key has been reported once as a permanent failure;
(iii) from then on the handler is not invoked for the key again for as long as the event
source does not enqueue it again; (iv) with leadership held, when the event source has
enqueued distinct keys once each and a worker then iterates, all this is reached within
`keys.length * (MaxRetries + 1)` iterations. -/
theorem retries_per_enqueue (cfg : Config) (handler : String → Nat → Bool) (k : String)
    (hfail : ∀ n, handler k n = false) :
    (∀ evs : List Event,
      (run cfg handler evs started).handled.count k
        ≤ (cfg.MaxRetries + 1) * (run cfg handler evs started).sourced.count k) ∧
    (∀ evs : List Event,
      (run cfg handler evs started).sourced.count k = 1 →
      (run cfg handler evs started).handled.count k ≤ cfg.MaxRetries + 1 ∧
      (k ∉ (run cfg handler evs started).queue.items →
        k ∉ (run cfg handler evs started).queue.processing →
        (run cfg handler evs started).handled.count k = cfg.MaxRetries + 1 ∧
        (run cfg handler evs started).dropped.count k = 1)) ∧
    (∀ evs1 evs2 : List Event,
      (run cfg handler evs1 started).sourced.count k = 1 →
      k ∉ (run cfg handler evs1 started).queue.items →
      k ∉ (run cfg handler evs1 started).queue.processing →
      (run cfg handler (evs1 ++ evs2) started).sourced.count k = 1 →
      (run cfg handler (evs1 ++ evs2) started).handled.count k = cfg.MaxRetries + 1) ∧
    (∀ (keys : List String) (n : Nat),
      k ∈ keys → keys.Nodup → 1 ≤ cfg.ConcurrentWorkers →
      keys.length * (cfg.MaxRetries + 1) ≤ n →
      (run cfg handler (arrivals keys ++ iterations n) started).handled.count k
          = cfg.MaxRetries + 1 ∧
        k ∉ (run cfg handler (arrivals keys ++ iterations n) started).queue.items ∧
        k ∉ (run cfg handler (arrivals keys ++ iterations n) started).queue.processing ∧
        (run cfg handler (arrivals keys ++ iterations n) started).dropped.count k = 1) := by
  have hinv : ∀ evs, Inv cfg k (run cfg handler evs started) := fun evs =>
    inv_run cfg handler k hfail evs started (inv_started cfg k)
  have hpart2 : ∀ evs : List Event,
      (run cfg handler evs started).sourced.count k = 1 →
      (run cfg handler evs started).handled.count k ≤ cfg.MaxRetries + 1 ∧
      (k ∉ (run cfg handler evs started).queue.items →
        k ∉ (run cfg handler evs started).queue.processing →
        (run cfg handler evs started).handled.count k = cfg.MaxRetries + 1 ∧
        (run cfg handler evs started).dropped.count k = 1) := by
    intro evs h1
    obtain ⟨-, he, hd1, -⟩ := (hinv evs).exact1 h1
    refine ⟨by omega, ?_⟩
    intro hw hp
    have hc : credit cfg (run cfg handler evs started).queue k = 0 := by
      simp [credit, hw, hp]
    rw [hc] at he
    exact ⟨he, hd1 hw hp⟩
  refine ⟨?_, hpart2, ?_, ?_⟩
  · intro evs
    have := (hinv evs).bound
    omega
  · intro evs1 evs2 h1 hw hp h2
    have ha := (hpart2 evs1 h1).2 hw hp
    have hb := (hpart2 (evs1 ++ evs2) h2).1
    have hm := handled_count_run cfg handler k evs2 (run cfg handler evs1 started)
    rw [← run_append] at hm
    omega
  · intro keys n hk hnd hw hn
    have harr := arrivals_run cfg handler keys started rfl (by simpa [started] using hnd)
    have hdi : DrainInv cfg (run cfg handler (arrivals keys) started) := by
      refine ⟨?_, ?_, ?_, ?_⟩
      · rw [harr.1]; rfl
      · rw [harr.1]; simpa [started] using hnd
      · intro j; rw [harr.1]; rfl
      · intro j _; rw [harr.1]; simp [started]
    have hbud : budget cfg (run cfg handler (arrivals keys) started).queue ≤ n := by
      rw [harr.1]
      simpa [budget, started] using hn
    obtain ⟨h1, h2, h3⟩ := iterations_drain cfg handler hw n _ hdi hbud
    rw [← run_append] at h1 h2 h3
    have hs : (run cfg handler (arrivals keys ++ iterations n) started).sourced.count k = 1 := by
      rw [h3, harr.2]
      simpa [started] using List.count_eq_one_of_mem hnd hk
    have hw2 : k ∉ (run cfg handler (arrivals keys ++ iterations n) started).queue.items := by
      rw [h1]; exact List.not_mem_nil k
    have hp2 : k ∉ (run cfg handler (arrivals keys ++ iterations n) started).queue.processing := by
      rw [h2]; exact List.not_mem_nil k
    have := (hpart2 _ hs).2 hw2 hp2
    exact ⟨this.1, hw2, hp2, this.2⟩

/-- C10 (amended) on a controller with two retries and one worker whose event source has
seen "default/a" and "default/b" once each: after six iterations the handler has been
invoked three times for "default/a", which is out of the queue and reported once. -/
theorem retries_per_enqueue_witness :
    (run ⟨"ctrl", 0, 2, 1⟩ (fun _ _ => false)
        (arrivals ["default/a", "default/b"] ++ iterations 6) started).handled.count "default/a"
      = 2 + 1 ∧
    "default/a" ∉ (run ⟨"ctrl", 0, 2, 1⟩ (fun _ _ => false)
        (arrivals ["default/a", "default/b"] ++ iterations 6) started).queue.items ∧
    "default/a" ∉ (run ⟨"ctrl", 0, 2, 1⟩ (fun _ _ => false)
        (arrivals ["default/a", "default/b"] ++ iterations 6) started).queue.processing ∧
    (run ⟨"ctrl", 0, 2, 1⟩ (fun _ _ => false)
        (arrivals ["default/a", "default/b"] ++ iterations 6) started).dropped.count "default/a"
      = 1 :=
  (retries_per_enqueue ⟨"ctrl", 0, 2, 1⟩ (fun _ _ => false) "default/a" (fun _ => rfl)).2.2.2
    ["default/a", "default/b"] 6 (by decide) (by decide) (by decide) (by decide)

end Controller
end Kooper
